import Mathlib

/-!
Verification of the redis-like server (dann-tran/codecrafters-redis-rust).

A shallow embedding of the parts of the repository that its specification's
testable properties talk about, together with proofs and refutations of those
properties.

Modelling conventions, used throughout:
* Rust byte slices (`&[u8]`, `Vec<u8>`) are `List Nat` whose elements are the
  byte values; `String` values are represented by their UTF-8 byte lists and
  the `String::from_utf8` validity check is dropped (all strings the codec
  round-trips originate from valid UTF-8).
* Machine integers (`u8`, `u16`, `u32`, `u64`, `usize`, `i64`) are `Nat`/`Int`;
  where the code's behaviour depends on the type's range (`str::parse`
  overflow checks, wrapping byte arithmetic) the bound `2 ^ w` appears
  explicitly.
* `std::time::Duration` values are represented by their millisecond count: the
  program only ever builds them with `Duration::from_millis` and reads them
  with `as_millis`.
* `HashMap` is an association list (`List (key × value)`) whose `insert`
  replaces the value of an existing key in place and otherwise appends.
* Fallible Rust code (`anyhow::Result`, panics, `todo!()`) returns `Option`;
  `none` covers both error returns and aborts, and the distinction is noted
  where a claim depends on it.
* Loops that consume a buffer are modelled as fuel-indexed recursion, with the
  fuel chosen large enough for every input considered (a consuming parser
  needs at most one unit of fuel per input byte).
-/

/-! ## `src/utils.rs` -/

namespace Redis

/-- `utils::split_by_clrf`: split at the first `\r` (byte 13); the remainder
must start with `\n` (byte 10), which is removed.  `none` when there is no
`\r` or it is not followed by `\n`. -/
def split_by_clrf : List Nat → Option (List Nat × List Nat)
  | [] => none
  | b :: rest =>
    if b = 13 then
      match rest with
      | 10 :: rem => some ([], rem)
      | _ => none
    else
      (split_by_clrf rest).map (fun p => (b :: p.1, p.2))

/-- Decimal digit bytes `'0'..'9'`. -/
def isDigitByte (b : Nat) : Bool := 48 ≤ b && b ≤ 57

/-- The numeric value of a big-endian string of digit bytes. -/
def decimalValue (l : List Nat) : Nat := l.foldl (fun acc b => acc * 10 + (b - 48)) 0

/-- An all-digits, non-empty decimal string. -/
def allDigits (s : List Nat) : Bool := !s.isEmpty && s.all isDigitByte

/-- Rust `str::parse::<uN>` on a byte list: an optional leading `+`, then at
least one digit, with the overflow check against the type's bound. -/
def parseUInt (bound : Nat) (s : List Nat) : Option Nat :=
  let digits := if s.head? = some 43 then s.tail else s
  if allDigits digits then
    let v := decimalValue digits
    if v < bound then some v else none
  else none

/-- `utils::bytes2usize`: UTF-8 decode (identity on byte lists) then
`parse::<usize>` (64-bit). -/
def bytes2usize (s : List Nat) : Option Nat := parseUInt (2 ^ 64) s

/-- Rust `str::parse::<i64>`: optional sign, digits, range check. -/
def parseI64 (s : List Nat) : Option Int :=
  if s.head? = some 45 then
    if allDigits s.tail then
      let v := decimalValue s.tail
      if v ≤ 2 ^ 63 then some (-(v : Int)) else none
    else none
  else
    (parseUInt (2 ^ 63) s).map (fun v => (v : Int))

/-- Big-endian decimal digits of `n / 10^k`-style peeling, fuel-indexed
(`fuel ≥ n` always suffices). -/
def natToDecimalAux : Nat → Nat → List Nat
  | 0, _ => []
  | _, 0 => []
  | f + 1, n => natToDecimalAux f (n / 10) ++ [n % 10 + 48]

/-- Rust's `u64`/`usize`/`u128` `to_string` on a non-negative value. -/
def natToDecimal (n : Nat) : List Nat :=
  if n = 0 then [48] else natToDecimalAux (n + 1) n

/-- Rust's `i64` `to_string`. -/
def intToDecimal (i : Int) : List Nat :=
  if i < 0 then 45 :: natToDecimal i.natAbs else natToDecimal i.toNat

/-! ### Decimal round-trip lemmas -/

theorem natToDecimalAux_digits : ∀ f n, ∀ b ∈ natToDecimalAux f n, isDigitByte b = true := by
  intro f
  induction f with
  | zero => intro n b hb; simp [natToDecimalAux] at hb
  | succ f ih =>
    intro n b hb
    match n with
    | 0 => simp [natToDecimalAux] at hb
    | m + 1 =>
      rw [show natToDecimalAux (f + 1) (m + 1) =
        natToDecimalAux f ((m + 1) / 10) ++ [(m + 1) % 10 + 48] from rfl] at hb
      rcases List.mem_append.1 hb with h | h
      · exact ih _ b h
      · simp at h
        subst h
        have : (m + 1) % 10 < 10 := Nat.mod_lt _ (by norm_num)
        simp [isDigitByte]
        omega

theorem natToDecimal_digits (n : Nat) : ∀ b ∈ natToDecimal n, isDigitByte b = true := by
  intro b hb
  unfold natToDecimal at hb
  split at hb
  · simp at hb; subst hb; decide
  · exact natToDecimalAux_digits _ _ b hb

theorem natToDecimalAux_value : ∀ f n, n ≤ f →
    ∀ acc, List.foldl (fun acc b => acc * 10 + (b - 48)) acc (natToDecimalAux f n) =
      acc * 10 ^ (natToDecimalAux f n).length + n := by
  intro f
  induction f with
  | zero => intro n hn acc; interval_cases n; simp [natToDecimalAux]
  | succ f ih =>
    intro n hn acc
    match n with
    | 0 => simp [natToDecimalAux]
    | m + 1 =>
      rw [show natToDecimalAux (f + 1) (m + 1) =
        natToDecimalAux f ((m + 1) / 10) ++ [(m + 1) % 10 + 48] from rfl]
      have hdiv : (m + 1) / 10 ≤ f := by
        have := Nat.div_le_self (m + 1) 10
        have h2 : (m + 1) / 10 < m + 1 := Nat.div_lt_self (by omega) (by norm_num)
        omega
      rw [List.foldl_append, ih _ hdiv acc]
      simp [List.length_append, pow_succ]
      have hmod : (m + 1) % 10 ≤ m + 1 := Nat.mod_le _ _
      have := Nat.div_add_mod (m + 1) 10
      ring_nf
      omega

theorem decimalValue_natToDecimal (n : Nat) : decimalValue (natToDecimal n) = n := by
  unfold decimalValue natToDecimal
  split
  · subst n; simp
  · rw [natToDecimalAux_value (n + 1) n (by omega) 0]
    simp

theorem natToDecimal_ne_nil (n : Nat) : natToDecimal n ≠ [] := by
  unfold natToDecimal
  split
  · simp
  · rename_i h
    match hn : n with
    | 0 => omega
    | m + 1 => simp [natToDecimalAux]

theorem natToDecimal_head_digit (n : Nat) :
    ∀ b, natToDecimal n ≠ 43 :: b := by
  intro b h
  have := natToDecimal_digits n 43 (by rw [h]; simp)
  simp [isDigitByte] at this

theorem allDigits_natToDecimal (n : Nat) : allDigits (natToDecimal n) = true := by
  unfold allDigits
  rw [Bool.and_eq_true, List.all_eq_true]
  constructor
  · simpa [List.isEmpty_iff] using natToDecimal_ne_nil n
  · exact natToDecimal_digits n

theorem natToDecimal_head_not (n c : Nat) (hc : isDigitByte c = false) :
    (natToDecimal n).head? ≠ some c := by
  intro h
  match hl : natToDecimal n with
  | [] => exact natToDecimal_ne_nil n hl
  | b :: rest =>
    rw [hl] at h
    simp at h
    subst h
    have := natToDecimal_digits n b (by rw [hl]; simp)
    rw [hc] at this
    exact Bool.false_ne_true this

/-- `parse::<uN>` inverts `to_string` for in-range values. -/
theorem parseUInt_natToDecimal (bound n : Nat) (h : n < bound) :
    parseUInt bound (natToDecimal n) = some n := by
  unfold parseUInt
  rw [if_neg (natToDecimal_head_not n 43 (by decide))]
  rw [if_pos (allDigits_natToDecimal n)]
  simp only [decimalValue_natToDecimal]
  rw [if_pos h]

theorem bytes2usize_natToDecimal (n : Nat) (h : n < 2 ^ 64) :
    bytes2usize (natToDecimal n) = some n := parseUInt_natToDecimal _ n h

/-- `parse::<i64>` inverts `i64` `to_string` for in-range values. -/
theorem parseI64_intToDecimal (i : Int) (hlo : -(2 ^ 63) ≤ i) (hhi : i < 2 ^ 63) :
    parseI64 (intToDecimal i) = some i := by
  unfold parseI64 intToDecimal
  by_cases hneg : i < 0
  · rw [if_pos hneg]
    simp only [List.head?_cons, List.tail_cons, if_true, reduceCtorEq, if_pos rfl]
    rw [if_pos (allDigits_natToDecimal i.natAbs)]
    simp only [decimalValue_natToDecimal]
    rw [if_pos (by omega)]
    congr 1
    omega
  · rw [if_neg hneg]
    rw [if_neg (natToDecimal_head_not i.toNat 45 (by decide))]
    rw [parseUInt_natToDecimal _ i.toNat (by omega)]
    simp
    omega

/-! ## `src/resp.rs` -/

/-- `resp::RespValue`.  Texts are byte lists (see the modelling conventions). -/
inductive RespValue : Type where
  | SimpleString (s : List Nat)
  | BulkString (s : List Nat)
  | Array (vs : List RespValue)
  | NullBulkString
  | Integer (i : Int)
  | SimpleError (s : List Nat)

mutual

/-- `RespValue::to_bytes`. -/
def RespValue.to_bytes : RespValue → List Nat
  | .SimpleString s => 43 :: (s ++ [13, 10])
  | .BulkString s => 36 :: (natToDecimal s.length ++ [13, 10] ++ s ++ [13, 10])
  | .Array vs => 42 :: (natToDecimal vs.length ++ [13, 10] ++ toBytesList vs)
  | .NullBulkString => [36, 45, 49, 13, 10]
  | .Integer i => 58 :: (intToDecimal i ++ [13, 10])
  | .SimpleError s => 45 :: (s ++ [13, 10])

/-- Concatenated encodings of array elements (`values.iter().for_each`). -/
def toBytesList : List RespValue → List Nat
  | [] => []
  | v :: vs => v.to_bytes ++ toBytesList vs

end

mutual

/-- `resp::decode`, fuel-indexed (the source recursion consumes at least one
byte per level, so `bytes.length + 1` fuel always suffices).  Note the source
has no branch for `-` (SimpleError) and none for a `$-1` length: both fall
through to a parse failure. -/
def decodeF : Nat → List Nat → Option (RespValue × List Nat)
  | 0, _ => none
  | _ + 1, [] => none
  | f + 1, b :: rest =>
    if b = 43 then
      -- simple string (the `String::from_utf8` check is identity here)
      (split_by_clrf rest).map (fun p => (.SimpleString p.1, p.2))
    else if b = 36 then
      -- bulk string
      match split_by_clrf rest with
      | none => none
      | some (length_bytes, bytes) =>
        match bytes2usize length_bytes with
        | none => none
        | some length =>
          match split_by_clrf bytes with
          | none => none
          | some (data, bytes) =>
            if data.length ≠ length then none
            else some (.BulkString data, bytes)
    else if b = 42 then
      -- list
      match split_by_clrf rest with
      | none => none
      | some (vec_length_bytes, bytes) =>
        match bytes2usize vec_length_bytes with
        | none => none
        | some vec_length =>
          (decodeListF f vec_length bytes).map (fun p => (.Array p.1, p.2))
    else if b = 58 then
      -- integer
      match split_by_clrf rest with
      | none => none
      | some (value, bytes) =>
        (parseI64 value).map (fun v => (.Integer v, bytes))
    else none

/-- The element loop of `resp::decode`'s array branch. -/
def decodeListF : Nat → Nat → List Nat → Option (List RespValue × List Nat)
  | 0, _, _ => none
  | _ + 1, 0, bytes => some ([], bytes)
  | f + 1, n + 1, bytes =>
    match decodeF f bytes with
    | none => none
    | some (value, bytes) =>
      (decodeListF f n bytes).map (fun p => (value :: p.1, p.2))

end

/-- `resp::decode` at its standard fuel. -/
def decode (bytes : List Nat) : Option (RespValue × List Nat) :=
  decodeF (bytes.length + 1) bytes

/-- `resp::decode_array_of_bulkstrings`. -/
def decode_array_of_bulkstrings (bytes : List Nat) : Option (List (List Nat) × List Nat) :=
  match decode bytes with
  | none => none
  | some (cmd, remaining) =>
    match cmd with
    | .Array values =>
      (values.mapM (fun v => match v with
        | RespValue.BulkString x => some x
        | _ => none)).map (fun arr => (arr, remaining))
    | _ => none

/-! ### Codec round-trip -/

/-- The fragment of protocol values whose encodings `resp::decode` can read
back: no `SimpleError` and no `NullBulkString` (the decoder has no branch for
either), no CR byte inside a simple-string text or bulk payload
(`split_by_clrf` cuts at the first CR), integers within `i64`, and lengths
within `usize` (automatic for Rust vectors). -/
inductive GoodResp : RespValue → Prop where
  | simpleString (s : List Nat) (h : ∀ b ∈ s, b ≠ 13) : GoodResp (.SimpleString s)
  | bulkString (s : List Nat) (h : ∀ b ∈ s, b ≠ 13) (hlen : s.length < 2 ^ 64) :
      GoodResp (.BulkString s)
  | integer (i : Int) (hlo : -(2 ^ 63) ≤ i) (hhi : i < 2 ^ 63) : GoodResp (.Integer i)
  | array (vs : List RespValue) (h : ∀ v ∈ vs, GoodResp v) (hlen : vs.length < 2 ^ 64) :
      GoodResp (.Array vs)

theorem split_by_clrf_append (s rest : List Nat) (h : ∀ b ∈ s, b ≠ 13) :
    split_by_clrf (s ++ 13 :: 10 :: rest) = some (s, rest) := by
  induction s with
  | nil => simp [split_by_clrf]
  | cons b bs ih =>
    have hb : b ≠ 13 := h b (by simp)
    simp only [List.cons_append, split_by_clrf, if_neg hb, List.append_eq]
    rw [ih (fun c hc => h c (by simp [hc]))]
    rfl

theorem intToDecimal_no_cr (i : Int) : ∀ b ∈ intToDecimal i, b ≠ 13 := by
  intro b hb
  unfold intToDecimal at hb
  have digit_ne : ∀ n c, c ∈ natToDecimal n → c ≠ 13 := by
    intro n c hc
    have := natToDecimal_digits n c hc
    simp [isDigitByte] at this
    omega
  split at hb
  · rcases List.mem_cons.1 hb with h | h
    · omega
    · exact digit_ne _ b h
  · exact digit_ne _ b hb

theorem natToDecimal_no_cr (n : Nat) : ∀ b ∈ natToDecimal n, b ≠ 13 := by
  intro b hb
  have := natToDecimal_digits n b hb
  simp [isDigitByte] at this
  omega

theorem natToDecimal_length_pos (n : Nat) : 1 ≤ (natToDecimal n).length :=
  List.length_pos.2 (natToDecimal_ne_nil n)

theorem intToDecimal_length_pos (i : Int) : 1 ≤ (intToDecimal i).length := by
  unfold intToDecimal
  split
  · simp
  · exact natToDecimal_length_pos _

theorem to_bytes_length_ge (v : RespValue) : 3 ≤ v.to_bytes.length := by
  cases v with
  | SimpleString s => simp [RespValue.to_bytes]
  | BulkString s =>
    have := natToDecimal_length_pos s.length
    simp [RespValue.to_bytes]
    omega
  | Array vs =>
    have := natToDecimal_length_pos vs.length
    simp [RespValue.to_bytes]
    omega
  | NullBulkString => simp [RespValue.to_bytes]
  | Integer i =>
    have := intToDecimal_length_pos i
    simp [RespValue.to_bytes]
    try omega
  | SimpleError s => simp [RespValue.to_bytes]

/-- The element loop reads back a concatenation of good encodings, given the
round-trip property for each element. -/
theorem decodeListF_toBytesList (vs : List RespValue)
    (ih : ∀ v ∈ vs, ∀ (rest : List Nat) (f : Nat), v.to_bytes.length ≤ f →
      decodeF f (v.to_bytes ++ rest) = some (v, rest)) :
    ∀ (tail : List Nat) (g : Nat), (toBytesList vs).length + 1 ≤ g →
      decodeListF g vs.length (toBytesList vs ++ tail) = some (vs, tail) := by
  induction vs with
  | nil =>
    intro tail g hg
    match g, hg with
    | g + 1, _ => rw [toBytesList, List.nil_append, List.length_nil, decodeListF]
  | cons v vs' ihvs =>
    intro tail g hg
    rw [toBytesList] at hg ⊢
    rw [List.length_append] at hg
    have hv3 := to_bytes_length_ge v
    match g, (by omega : 1 ≤ g) with
    | g + 1, _ =>
      rw [List.length_cons, decodeListF, List.append_assoc]
      rw [ih v (by simp) _ g (by omega)]
      dsimp only
      rw [ihvs (fun w hw => ih w (List.mem_cons_of_mem v hw)) tail g (by omega)]
      rfl

/-- Main round-trip lemma, stated with explicit fuel so the array elements can
reuse it at smaller fuel values. -/
theorem decodeF_to_bytes (v : RespValue) (hv : GoodResp v) :
    ∀ (rest : List Nat) (f : Nat), v.to_bytes.length ≤ f →
      decodeF f (v.to_bytes ++ rest) = some (v, rest) := by
  induction hv with
  | simpleString s h =>
    intro rest f hf
    rw [RespValue.to_bytes] at hf ⊢
    match f, hf with
    | f + 1, _ =>
      rw [List.cons_append, decodeF]
      rw [if_pos rfl]
      rw [List.append_assoc, List.cons_append, List.cons_append, List.nil_append,
        split_by_clrf_append s rest h]
      rfl
  | bulkString s h hlen =>
    intro rest f hf
    rw [RespValue.to_bytes] at hf ⊢
    match f, hf with
    | f + 1, _ =>
      rw [List.cons_append, decodeF]
      rw [if_neg (by decide), if_pos rfl]
      have h1 : (natToDecimal s.length ++ [13, 10] ++ s ++ [13, 10]) ++ rest =
          natToDecimal s.length ++ 13 :: 10 :: (s ++ 13 :: 10 :: rest) := by
        simp
      rw [h1, split_by_clrf_append _ _ (natToDecimal_no_cr s.length)]
      dsimp only
      rw [bytes2usize_natToDecimal s.length hlen]
      dsimp only
      rw [split_by_clrf_append s _ h]
      simp
  | integer i hlo hhi =>
    intro rest f hf
    rw [RespValue.to_bytes] at hf ⊢
    match f, hf with
    | f + 1, _ =>
      rw [List.cons_append, decodeF]
      rw [if_neg (by decide), if_neg (by decide), if_neg (by decide), if_pos rfl]
      have h1 : (intToDecimal i ++ [13, 10]) ++ rest = intToDecimal i ++ 13 :: 10 :: rest := by
        simp
      rw [h1, split_by_clrf_append _ _ (intToDecimal_no_cr i)]
      dsimp only
      rw [parseI64_intToDecimal i hlo hhi]
      rfl
  | array vs h hlen ih =>
    intro rest f hf
    rw [RespValue.to_bytes] at hf ⊢
    match f, hf with
    | f + 1, hf2 =>
      rw [List.cons_append, decodeF]
      rw [if_neg (by decide), if_neg (by decide), if_pos rfl]
      have h1 : (natToDecimal vs.length ++ [13, 10] ++ toBytesList vs) ++ rest =
          natToDecimal vs.length ++ 13 :: 10 :: (toBytesList vs ++ rest) := by
        simp
      rw [h1, split_by_clrf_append _ _ (natToDecimal_no_cr vs.length)]
      dsimp only
      rw [bytes2usize_natToDecimal vs.length hlen]
      dsimp only
      have hflen : (toBytesList vs).length + 1 ≤ f := by
        have h2 := natToDecimal_length_pos vs.length
        simp [List.length_cons, List.length_append] at hf2
        omega
      rw [decodeListF_toBytesList vs ih rest f hflen]
      rfl

/-- The round trip at `decode`'s standard fuel, shared by the codec and the
command layer. -/
theorem decode_good_roundtrip (v : RespValue) (hv : GoodResp v) :
    decode v.to_bytes = some (v, []) := by
  have h := decodeF_to_bytes v hv [] (v.to_bytes.length + 1) (by omega)
  rw [List.append_nil] at h
  exact h

/-- C1, as amended.  `decode (encode v) = (v, empty)` holds exactly on the
`GoodResp` fragment; see `c1_counterexample` for the values outside it. -/
theorem c1_codec_roundtrip (v : RespValue) (hv : GoodResp v) :
    decode v.to_bytes = some (v, []) :=
  decode_good_roundtrip v hv

/-- C1 witness: the amended round-trip evaluated at a concrete nested value
(a bulk payload containing a bare LF is fine; only CR breaks the codec). -/
theorem c1_codec_roundtrip_witness :
    decode (RespValue.to_bytes
        (.Array [.SimpleString [79, 75], .Integer (-5), .BulkString [104, 10]])) =
      some (.Array [.SimpleString [79, 75], .Integer (-5), .BulkString [104, 10]], []) :=
  c1_codec_roundtrip _ (by
    refine GoodResp.array _ ?_ (by norm_num)
    intro v hv
    simp only [List.mem_cons, List.not_mem_nil, or_false] at hv
    rcases hv with rfl | rfl | rfl
    · exact GoodResp.simpleString _ (by decide)
    · exact GoodResp.integer _ (by norm_num) (by norm_num)
    · exact GoodResp.bulkString _ (by decide) (by norm_num))

/-- C1 counterexample: the claim quantifies over all six in-scope protocol
values, but the source decoder has no `-` branch (SimpleError) and rejects the
`-1` length of a NullBulk encoding, and a CR byte inside a bulk payload makes
the CR-LF splitter cut early. -/
theorem c1_counterexample :
    decode (RespValue.to_bytes .NullBulkString) = none ∧
    decode (RespValue.to_bytes (.SimpleError [69, 82, 82])) = none ∧
    decode (RespValue.to_bytes (.BulkString [97, 13, 98])) = none :=
  ⟨rfl, rfl, rfl⟩

/-- C2: decoding a well-formed bulk-string frame whose payload contains a CR
byte fails (`split_by_clrf` cuts at the first CR and the length check then
misfires), and `$-1\r\n` is not decoded to NullBulk (the `-1` length fails
`bytes2usize`).  The input here is the frame `$3\r\na\rb\r\n`. -/
theorem c2_bulkstring_not_binary_safe :
    decode [36, 51, 13, 10, 97, 13, 98, 13, 10] = none ∧
    decode [36, 45, 49, 13, 10] = none ∧
    decode [36, 51, 13, 10, 97, 10, 98, 13, 10, 42] =
      some (.BulkString [97, 10, 98], [42]) :=
  ⟨rfl, rfl, rfl⟩

/-! ## `src/command.rs` -/

/-- ASCII bytes of a string literal. -/
def ascii (s : String) : List Nat := s.data.map Char.toNat

/-- `u8::to_ascii_lowercase`. -/
def lowerByte (b : Nat) : Nat := if 65 ≤ b ∧ b ≤ 90 then b + 32 else b

/-- `<[u8]>::to_ascii_lowercase`. -/
def lower (s : List Nat) : List Nat := s.map lowerByte

/-- `db::stream::StreamEntryID` (`millis`, `seq_num` are `u64`). -/
structure StreamEntryID where
  millis : Nat
  seq_num : Nat
deriving DecidableEq

/-- `db::stream::ReqStreamEntryID`: explicit millis, optional seq. -/
structure ReqStreamEntryID where
  millis : Nat
  seq_num : Option Nat
deriving DecidableEq

/-- `StreamEntryID::as_bytes`: `millis-seq` in decimal. -/
def StreamEntryID.as_bytes (id : StreamEntryID) : List Nat :=
  natToDecimal id.millis ++ [45] ++ natToDecimal id.seq_num

/-- `command::InfoArg`. -/
inductive InfoArg : Type where
  | Replication
deriving DecidableEq

/-- `command::ReplConfArg`.  The port is a `u16`, the offset a `usize`. -/
inductive ReplConfArg : Type where
  | ListeningPort (port : Nat)
  | Capa (capas : List (List Nat))
  | GetAck
  | Ack (offset : Nat)
deriving DecidableEq

/-- `command::ConfigArg`. -/
inductive ConfigArg : Type where
  | Get (key : List Nat)
deriving DecidableEq

/-- `command::XReadStreamArg`. -/
structure XReadStreamArg where
  key : List Nat
  start : StreamEntryID
deriving DecidableEq

/-- `command::Command`.  `px`/`block`/`timeout_dur` are `Duration`s represented
by their millisecond count; `repl_id` is the 40-character array represented by
its bytes; the XADD field map is an association list. -/
inductive Command : Type where
  | Ping
  | Echo (val : List Nat)
  | Set (key value : List Nat) (px : Option Nat)
  | Get (key : List Nat)
  | Info (arg : Option InfoArg)
  | ReplConf (arg : ReplConfArg)
  | PSync (repl_id : Option (List Nat)) (repl_offset : Option Nat)
  | Wait (repl_ack_num : Nat) (timeout_dur : Nat)
  | Config (arg : ConfigArg)
  | Keys
  | LookupType (key : List Nat)
  | XAdd (key : List Nat) (entry_id : Option ReqStreamEntryID)
      (data : List (List Nat × List Nat))
  | XRange (key : List Nat) (start : StreamEntryID) (ende : StreamEntryID)
  | XRead (block : Option Nat) (streams : List XReadStreamArg)
deriving DecidableEq

/-- The argument vector each implemented `Command::to_bytes` arm produces;
`none` is the `todo!()` abort of the unimplemented arms (`Wait`, `Config`,
`Keys`, `LookupType`, `XAdd`, `XRange`). -/
def Command.toArgs : Command → Option (List (List Nat))
  | .Ping => some [ascii "PING"]
  | .Echo arg => some [ascii "ECHO", arg]
  | .Set key value px =>
    some ([ascii "SET", key, value] ++
      (match px with
       | some val => [ascii "px", natToDecimal val]
       | none => []))
  | .Get key => some [ascii "GET", key]
  | .Info info_arg =>
    some ([ascii "INFO"] ++ (if info_arg.isSome then [ascii "replication"] else []))
  | .ReplConf arg =>
    some (match arg with
      | .ListeningPort port => [ascii "REPLCONF", ascii "listening-port", natToDecimal port]
      | .Capa capas => ascii "REPLCONF" :: capas.flatMap (fun capa => [ascii "capa", capa])
      | .GetAck => [ascii "REPLCONF", ascii "GETACK", ascii "*"]
      | .Ack offset => [ascii "REPLCONF", ascii "ACK", natToDecimal offset])
  | .PSync repl_id repl_offset =>
    some [ascii "PSYNC",
      (match repl_id with | some id => id | none => ascii "?"),
      (match repl_offset with | some offset => natToDecimal offset | none => ascii "-1")]
  | .XRead block streams =>
    some (ascii "XREAD" ::
      ((match block with | some dur => [ascii "block", natToDecimal dur] | none => []) ++
        (ascii "streams" :: (streams.map (·.key) ++ streams.map (·.start.as_bytes)))))
  | _ => none

/-- `Command::to_bytes`: the argument vector encoded as a RESP array of bulk
strings. -/
def Command.to_bytes (c : Command) : Option (List Nat) :=
  (c.toArgs).map (fun args => (RespValue.Array (args.map .BulkString)).to_bytes)

/-- The `capa` repetition loop of the `REPLCONF` decoder: the source
`assert_eq!(&arg[..], b"capa")` panic is `none` here. -/
def capaLoop : List (List Nat) → Option (List (List Nat))
  | [] => some []
  | arg :: rest =>
    if arg = ascii "capa" then
      match rest with
      | [] => none
      | capa :: rest2 => (capaLoop rest2).map (fun capas => capa :: capas)
    else none

/-- XADD's request-ID parser: `*` means fully automatic; otherwise
`millis-seq` or `millis-*`. -/
def parseXAddEntryId (entry_id : List Nat) : Option (Option ReqStreamEntryID) :=
  if entry_id = [42] then some none
  else
    match entry_id.findIdx? (fun c => c == 45) with
    | none => none
    | some idx =>
      match parseUInt (2 ^ 64) (entry_id.take idx) with
      | none => none
      | some millis =>
        let seq_num_bytes := entry_id.drop (idx + 1)
        if seq_num_bytes = [42] then some (some ⟨millis, none⟩)
        else
          (parseUInt (2 ^ 64) seq_num_bytes).map
            (fun seq => some ⟨millis, some seq⟩)

/-- XRANGE/XREAD entry-ID parser for arguments that are `millis-seq` or a bare
`millis` with a defaulted sequence number. -/
def parseIdDashOrDefault (dflt : Nat) (s : List Nat) : Option StreamEntryID :=
  match s.findIdx? (fun c => c == 45) with
  | some idx =>
    match parseUInt (2 ^ 64) (s.take idx) with
    | none => none
    | some millis =>
      (parseUInt (2 ^ 64) (s.drop (idx + 1))).map (fun seq => ⟨millis, seq⟩)
  | none => (parseUInt (2 ^ 64) s).map (fun millis => ⟨millis, dflt⟩)

/-- `chunks_exact(2)`: consecutive pairs, dropping an unpaired trailer. -/
def chunksExact2 : List α → List (α × α)
  | a :: b :: rest => (a, b) :: chunksExact2 rest
  | _ => []

/-- `HashMap::insert` on the association-list model: replace in place or
append. -/
def assocInsert [DecidableEq K] (k : K) (v : V) (m : List (K × V)) : List (K × V) :=
  if m.any (fun p => p.1 = k) then m.map (fun p => if p.1 = k then (k, v) else p)
  else m ++ [(k, v)]

/-- XADD's field/value fold over `chunks_exact(2)`. -/
def xaddData (elems : List (List Nat)) : List (List Nat × List Nat) :=
  (chunksExact2 elems).foldl (fun acc p => assocInsert p.1 p.2 acc) []

/-- The keyword loop of the XREAD decoder, fuel-indexed (each iteration
consumes at least one argument).  Mirrors the odd-count handling of the
`streams` branch, where the dropped trailing argument is left in `remaining`
and later trips the trailing-arguments check; in the odd case with no keys at
all the source's re-slice `&starts[starts.len() - 1..]` underflows its
`usize` index and panics, which is `none` here. -/
def xreadLoop : Nat → List (List Nat) → Option Nat → Option (List XReadStreamArg) →
    Option (Option Nat × Option (List XReadStreamArg) × List (List Nat))
  | 0, _, _, _ => none
  | _ + 1, [], block, streams => some (block, streams, [])
  | f + 1, kw :: rest, block, streams =>
    if kw = ascii "block" then
      match rest with
      | [] => none
      | dur :: rest2 =>
        match parseUInt (2 ^ 64) dur with
        | none => none
        | some d => xreadLoop f rest2 (some d) streams
    else if kw = ascii "streams" then
      let keys := rest.take (rest.length / 2)
      let starts := rest.drop (rest.length / 2)
      let starts2 := if starts.length = keys.length then starts else starts.dropLast
      if ¬starts.length = keys.length ∧ starts2.length = 0 then none
      else
        let rem2 := if starts.length = keys.length then ([] : List (List Nat))
          else starts2.drop (starts2.length - 1)
        match (keys.zip starts2).mapM
            (fun p => (parseIdDashOrDefault 0 p.2).map (fun s => XReadStreamArg.mk p.1 s)) with
        | none => none
        | some args => xreadLoop f rem2 block (some args)
    else none

/-- One branch of the verb dispatch in `Command::from_bytes`; returns the
command and the unconsumed argument-vector tail. -/
def parseCmd (verb : List Nat) (remaining : List (List Nat)) :
    Option (Command × List (List Nat)) :=
  if verb = ascii "ping" then some (.Ping, remaining)
  else if verb = ascii "echo" then
    match remaining with
    | [] => none
    | val :: rest => some (.Echo val, rest)
  else if verb = ascii "get" then
    match remaining with
    | [] => none
    | val :: rest => some (.Get val, rest)
  else if verb = ascii "set" then
    match remaining with
    | key :: value :: rest =>
      match rest with
      | [] => some (.Set key value none, [])
      | px_key :: rest2 =>
        if lower px_key = ascii "px" then
          match rest2 with
          | [] => none
          | pxv :: rest3 =>
            (parseUInt (2 ^ 64) pxv).map (fun px => (.Set key value (some px), rest3))
        else none
    | _ => none
  else if verb = ascii "info" then
    match remaining with
    | [] => some (.Info none, [])
    | v :: rest =>
      if lower v = ascii "replication" then some (.Info (some .Replication), rest)
      else none
  else if verb = ascii "replconf" then
    match remaining with
    | [] => none
    | arg :: rest =>
      if lower arg = ascii "listening-port" then
        match rest with
        | [] => none
        | port :: rest2 =>
          (parseUInt (2 ^ 16) port).map (fun p => (.ReplConf (.ListeningPort p), rest2))
      else if lower arg = ascii "capa" then
        match rest with
        | [] => none
        | capa :: rest2 =>
          (capaLoop rest2).map (fun capas => (.ReplConf (.Capa (capa :: capas)), []))
      else if lower arg = ascii "getack" then
        match rest with
        | [] => none
        | star :: rest2 => if star = ascii "*" then some (.ReplConf .GetAck, rest2) else none
      else if lower arg = ascii "ack" then
        match rest with
        | [] => none
        | off :: rest2 =>
          (parseUInt (2 ^ 64) off).map (fun o => (.ReplConf (.Ack o), rest2))
      else none
  else if verb = ascii "psync" then
    match remaining with
    | repl_id :: repl_offset :: rest =>
      let idOpt : Option (Option (List Nat)) :=
        if repl_id = ascii "?" then some none
        else if repl_id.length = 40 then some (some repl_id) else none
      match idOpt with
      | none => none
      | some id =>
        let offOpt : Option (Option Nat) :=
          if repl_offset = ascii "-1" then some none
          else (parseUInt (2 ^ 64) repl_offset).map some
        match offOpt with
        | none => none
        | some off => some (.PSync id off, rest)
    | _ => none
  else if verb = ascii "wait" then
    match remaining with
    | repl_num :: sec_num :: rest =>
      match parseUInt (2 ^ 64) repl_num with
      | none => none
      | some n =>
        (parseUInt (2 ^ 64) sec_num).map (fun t => (.Wait n t, rest))
    | _ => none
  else if verb = ascii "config" then
    match remaining with
    | [] => none
    | arg :: rest =>
      if lower arg = ascii "get" then
        match rest with
        | [] => none
        | key :: rest2 => some (.Config (.Get key), rest2)
      else none
  else if verb = ascii "keys" then
    match remaining with
    | [] => none
    | _ :: rest => some (.Keys, rest)
  else if verb = ascii "type" then
    match remaining with
    | [] => none
    | val :: rest => some (.LookupType val, rest)
  else if verb = ascii "xadd" then
    match remaining with
    | key :: entry_id :: rest =>
      match parseXAddEntryId entry_id with
      | none => none
      | some id =>
        let data := xaddData rest
        some (.XAdd key id data, rest.drop (data.length * 2))
    | _ => none
  else if verb = ascii "xrange" then
    match remaining with
    | key :: startb :: endb :: rest =>
      let startOpt : Option StreamEntryID :=
        if startb = ascii "-" then some ⟨0, 0⟩
        else parseIdDashOrDefault 0 startb
      match startOpt with
      | none => none
      | some s =>
        let endOpt : Option StreamEntryID :=
          if endb = ascii "+" then some ⟨2 ^ 64 - 1, 2 ^ 64 - 1⟩
          else parseIdDashOrDefault (2 ^ 64 - 1) endb
        (endOpt).map (fun e => (.XRange key s e, rest))
    | _ => none
  else if verb = ascii "xread" then
    match xreadLoop (remaining.length + 1) remaining none none with
    | none => none
    | some (block, streams, rem) =>
      match streams with
      | none => none
      | some args => some (.XRead block args, rem)
  else none

/-- `Command::from_bytes`. -/
def Command.from_bytes (bytes : List Nat) : Option (Command × List Nat) :=
  match decode_array_of_bulkstrings bytes with
  | none => none
  | some (args, remaining_bytes) =>
    match args with
    | [] => none
    | verb :: remaining =>
      match parseCmd (lower verb) remaining with
      | none => none
      | some (cmd, rem) =>
        if rem = [] then some (cmd, remaining_bytes) else none

/-! ### Command round-trip -/

/-- A byte-string argument the codec can carry: no CR byte (the CR-LF framing
breaks otherwise) and a `usize` length (automatic for Rust vectors). -/
def WireArg (s : List Nat) : Prop := (∀ b ∈ s, b ≠ 13) ∧ s.length < 2 ^ 64

/-- The commands whose `to_bytes` arm is implemented (everything except the
`todo!()` arms) with arguments the codec can carry; numeric fields are within
their Rust types' ranges, the capa list is non-empty (an empty one encodes to
a bare `REPLCONF`, which does not parse), and an explicit PSYNC replication id
is 40 ASCII characters. -/
inductive GoodCmd : Command → Prop where
  | ping : GoodCmd .Ping
  | echo (val : List Nat) (h : WireArg val) : GoodCmd (.Echo val)
  | set (key value : List Nat) (px : Option Nat) (hk : WireArg key) (hv : WireArg value)
      (hpx : ∀ n ∈ px, n < 2 ^ 64) : GoodCmd (.Set key value px)
  | get (key : List Nat) (h : WireArg key) : GoodCmd (.Get key)
  | info (arg : Option InfoArg) : GoodCmd (.Info arg)
  | replconfPort (port : Nat) (h : port < 2 ^ 16) :
      GoodCmd (.ReplConf (.ListeningPort port))
  | replconfCapa (capas : List (List Nat)) (hne : capas ≠ [])
      (h : ∀ c ∈ capas, WireArg c) (hlen : capas.length < 2 ^ 62) :
      GoodCmd (.ReplConf (.Capa capas))
  | replconfGetAck : GoodCmd (.ReplConf .GetAck)
  | replconfAck (offset : Nat) (h : offset < 2 ^ 64) : GoodCmd (.ReplConf (.Ack offset))
  | psync (repl_id : Option (List Nat)) (repl_offset : Option Nat)
      (hid : ∀ id ∈ repl_id, id.length = 40 ∧ ∀ b ∈ id, b ≠ 13 ∧ b < 128)
      (hoff : ∀ n ∈ repl_offset, n < 2 ^ 64) : GoodCmd (.PSync repl_id repl_offset)
  | xread (block : Option Nat) (streams : List XReadStreamArg)
      (hb : ∀ n ∈ block, n < 2 ^ 64)
      (hs : ∀ a ∈ streams, WireArg a.key ∧ a.start.millis < 2 ^ 64 ∧ a.start.seq_num < 2 ^ 64)
      (hlen : streams.length < 2 ^ 62) : GoodCmd (.XRead block streams)

theorem natToDecimalAux_length_le : ∀ f n, (natToDecimalAux f n).length ≤ n := by
  intro f
  induction f with
  | zero => intro n; simp [natToDecimalAux]
  | succ f ih =>
    intro n
    match n with
    | 0 => simp [natToDecimalAux]
    | m + 1 =>
      rw [show natToDecimalAux (f + 1) (m + 1) =
        natToDecimalAux f ((m + 1) / 10) ++ [(m + 1) % 10 + 48] from rfl]
      rw [List.length_append]
      have h1 := ih ((m + 1) / 10)
      have h2 : (m + 1) / 10 < m + 1 := Nat.div_lt_self (by omega) (by norm_num)
      simp
      omega

theorem natToDecimal_length_lt (n : Nat) (h : n < 2 ^ 64) :
    (natToDecimal n).length < 2 ^ 64 := by
  unfold natToDecimal
  split
  · simp
  · have := natToDecimalAux_length_le (n + 1) n
    omega

theorem natToDecimal_wire (n : Nat) (h : n < 2 ^ 64) : WireArg (natToDecimal n) :=
  ⟨natToDecimal_no_cr n, natToDecimal_length_lt n h⟩

theorem mapM_bulk_extract (args : List (List Nat)) :
    (args.map RespValue.BulkString).mapM (fun v => match v with
      | RespValue.BulkString x => some x
      | _ => none) = some args := by
  induction args with
  | nil => rfl
  | cons a rest ih =>
    rw [List.map_cons, List.mapM_cons, ih]
    rfl

theorem decode_array_of_bulkstrings_encode (args : List (List Nat))
    (h : ∀ a ∈ args, WireArg a) (hlen : args.length < 2 ^ 64) :
    decode_array_of_bulkstrings ((RespValue.Array (args.map .BulkString)).to_bytes) =
      some (args, []) := by
  unfold decode_array_of_bulkstrings
  rw [decode_good_roundtrip _ (GoodResp.array _
    (by
      intro v hv
      rw [List.mem_map] at hv
      obtain ⟨a, ha, rfl⟩ := hv
      exact GoodResp.bulkString a (h a ha).1 (h a ha).2)
    (by rw [List.length_map]; exact hlen))]
  dsimp only
  rw [mapM_bulk_extract]
  rfl

theorem from_bytes_encodeArgs (verb : List Nat) (rest : List (List Nat))
    (h : ∀ a ∈ verb :: rest, WireArg a) (hlen : (verb :: rest).length < 2 ^ 64) :
    Command.from_bytes ((RespValue.Array ((verb :: rest).map .BulkString)).to_bytes) =
      match parseCmd (lower verb) rest with
      | none => none
      | some (cmd, rem) => if rem = [] then some (cmd, []) else none := by
  unfold Command.from_bytes
  rw [decode_array_of_bulkstrings_encode _ h hlen]

theorem findIdx?_dash (l r : List Nat) (h : ∀ b ∈ l, isDigitByte b = true) :
    List.findIdx? (fun c => c == 45) (l ++ 45 :: r) = some l.length := by
  induction l with
  | nil => simp [List.findIdx?]
  | cons b bs ih =>
    have hb := h b (by simp)
    have hb45 : (b == 45) = false := by
      simp [isDigitByte] at hb ⊢
      omega
    rw [List.cons_append, List.findIdx?_cons, hb45]
    rw [if_neg (by decide : ¬(false = true))]
    rw [List.findIdx?_succ, ih (fun c hc => h c (by simp [hc]))]
    rfl

/-- An `as_bytes` serialisation parses back to its entry ID. -/
theorem parseIdDashOrDefault_as_bytes (dflt : Nat) (id : StreamEntryID)
    (hm : id.millis < 2 ^ 64) (hs : id.seq_num < 2 ^ 64) :
    parseIdDashOrDefault dflt id.as_bytes = some id := by
  unfold parseIdDashOrDefault StreamEntryID.as_bytes
  rw [List.append_assoc, List.singleton_append,
    findIdx?_dash _ _ (natToDecimal_digits id.millis)]
  dsimp only
  rw [show (natToDecimal id.millis ++ 45 :: natToDecimal id.seq_num).take
      (natToDecimal id.millis).length = natToDecimal id.millis from
    List.take_left _ _]
  rw [parseUInt_natToDecimal _ _ hm]
  rw [show (natToDecimal id.millis ++ 45 :: natToDecimal id.seq_num).drop
      ((natToDecimal id.millis).length + 1) = natToDecimal id.seq_num by
    rw [← List.drop_drop, List.drop_left]
    rfl]
  rw [parseUInt_natToDecimal _ _ hs]
  rfl

theorem capaLoop_flatMap (capas : List (List Nat)) :
    capaLoop (capas.flatMap (fun capa => [ascii "capa", capa])) = some capas := by
  induction capas with
  | nil => rfl
  | cons c cs ih =>
    rw [List.flatMap_cons, List.cons_append, List.cons_append, List.nil_append]
    rw [capaLoop, if_pos rfl, ih]
    rfl

theorem xread_mapM_parse (streams : List XReadStreamArg)
    (hs : ∀ a ∈ streams, a.start.millis < 2 ^ 64 ∧ a.start.seq_num < 2 ^ 64) :
    ((streams.map (·.key)).zip (streams.map (·.start.as_bytes))).mapM
        (fun p => (parseIdDashOrDefault 0 p.2).map (fun s => XReadStreamArg.mk p.1 s)) =
      some streams := by
  rw [List.zip_map']
  induction streams with
  | nil => rfl
  | cons a rest ih =>
    rw [List.map_cons, List.mapM_cons]
    rw [parseIdDashOrDefault_as_bytes 0 a.start (hs a (by simp)).1 (hs a (by simp)).2]
    rw [ih (fun b hb => hs b (List.mem_cons_of_mem a hb))]
    rfl

/-- The `streams` branch of the XREAD keyword loop on an encoded argument
tail. -/
theorem xreadLoop_streams (streams : List XReadStreamArg) (block : Option Nat) (f : Nat)
    (hs : ∀ a ∈ streams, a.start.millis < 2 ^ 64 ∧ a.start.seq_num < 2 ^ 64) :
    xreadLoop (f + 2)
        (ascii "streams" :: (streams.map (·.key) ++ streams.map (·.start.as_bytes)))
        block none =
      some (block, some streams, []) := by
  rw [show f + 2 = (f + 1) + 1 from rfl, xreadLoop.eq_def]
  dsimp only
  rw [if_neg (by decide), if_pos rfl]
  have hlen : (streams.map (·.key) ++ streams.map (·.start.as_bytes)).length / 2 =
      (streams.map (·.key)).length := by
    rw [List.length_append, List.length_map, List.length_map]
    omega
  rw [hlen, List.take_left, List.drop_left]
  rw [if_neg (by
    rintro ⟨hne, h0⟩
    exact hne (by rw [List.length_map, List.length_map]))]
  rw [if_pos (by rw [List.length_map, List.length_map])]
  rw [xread_mapM_parse streams hs]
  rw [if_pos (by rw [List.length_map, List.length_map])]
  rfl

theorem natToDecimalAux_length_le_pow : ∀ f k n, n < 10 ^ k →
    (natToDecimalAux f n).length ≤ k := by
  intro f
  induction f with
  | zero => intro k n _; simp [natToDecimalAux]
  | succ f ih =>
    intro k n hn
    match n with
    | 0 => simp [natToDecimalAux]
    | m + 1 =>
      rw [show natToDecimalAux (f + 1) (m + 1) =
        natToDecimalAux f ((m + 1) / 10) ++ [(m + 1) % 10 + 48] from rfl]
      rw [List.length_append]
      match k with
      | 0 => omega
      | k + 1 =>
        have hdiv : (m + 1) / 10 < 10 ^ k := by
          rw [Nat.div_lt_iff_lt_mul (by norm_num)]
          rw [pow_succ] at hn
          omega
        have := ih k ((m + 1) / 10) hdiv
        simp
        omega

theorem natToDecimal_length_le_20 (n : Nat) (h : n < 2 ^ 64) :
    (natToDecimal n).length ≤ 20 := by
  unfold natToDecimal
  split
  · simp
  · exact natToDecimalAux_length_le_pow (n + 1) 20 n (by
      calc n < 2 ^ 64 := h
        _ < 10 ^ 20 := by norm_num)

theorem as_bytes_wire (id : StreamEntryID) (hm : id.millis < 2 ^ 64)
    (hs : id.seq_num < 2 ^ 64) : WireArg id.as_bytes := by
  constructor
  · intro b hb
    unfold StreamEntryID.as_bytes at hb
    rcases List.mem_append.1 hb with h | h
    · rcases List.mem_append.1 h with h2 | h2
      · exact natToDecimal_no_cr _ b h2
      · simp at h2; omega
    · exact natToDecimal_no_cr _ b h
  · unfold StreamEntryID.as_bytes
    rw [List.length_append, List.length_append]
    have h1 := natToDecimal_length_le_20 _ hm
    have h2 := natToDecimal_length_le_20 _ hs
    simp
    omega

theorem capa_flatMap_length (capas : List (List Nat)) (a : List Nat) :
    (capas.flatMap (fun capa => [a, capa])).length = 2 * capas.length := by
  induction capas with
  | nil => rfl
  | cons c cs ih => simp [List.flatMap_cons, ih]; omega

theorem natToDecimal_ne_neg1 (n : Nat) : natToDecimal n ≠ ascii "-1" := by
  intro h
  have := natToDecimal_head_not n 45 (by decide)
  rw [h] at this
  exact this rfl

theorem parseCmd_psync (idb offb : List Nat) :
    parseCmd (lower (ascii "PSYNC")) [idb, offb] =
      (match (if idb = ascii "?" then some none
          else if idb.length = 40 then some (some idb) else none :
          Option (Option (List Nat))) with
      | none => none
      | some id =>
        match (if offb = ascii "-1" then some none
            else (parseUInt (2 ^ 64) offb).map some : Option (Option Nat)) with
        | none => none
        | some off => some (.PSync id off, [])) := rfl

theorem parseCmd_xread (rest : List (List Nat)) :
    parseCmd (lower (ascii "XREAD")) rest =
      match xreadLoop (rest.length + 1) rest none none with
      | none => none
      | some (block, streams, rem) =>
        match streams with
        | none => none
        | some args => some (.XRead block args, rem) := rfl

theorem xreadLoop_block (f : Nat) (dur : List Nat) (rest2 : List (List Nat))
    (b0 : Option Nat) (s0 : Option (List XReadStreamArg)) :
    xreadLoop (f + 1) (ascii "block" :: dur :: rest2) b0 s0 =
      match parseUInt (2 ^ 64) dur with
      | none => none
      | some d => xreadLoop f rest2 (some d) s0 := rfl

/-- C7, as amended.  Every command whose `to_bytes` arm is implemented and
whose arguments the codec can carry round-trips; the `todo!()` arms are the
subject of `c7_counterexample`. -/
theorem c7_command_roundtrip (c : Command) (h : GoodCmd c) :
    ∃ bytes, c.to_bytes = some bytes ∧ Command.from_bytes bytes = some (c, []) := by
  cases h with
  | ping => exact ⟨_, rfl, rfl⟩
  | echo val hval =>
    refine ⟨_, rfl, (from_bytes_encodeArgs (ascii "ECHO") [val]
      (by
        intro a ha
        simp only [List.mem_cons, List.not_mem_nil, or_false] at ha
        rcases ha with rfl | rfl
        · exact ⟨by decide, by decide⟩
        · exact hval)
      (by norm_num)).trans ?_⟩
    rfl
  | get key hkey =>
    refine ⟨_, rfl, (from_bytes_encodeArgs (ascii "GET") [key]
      (by
        intro a ha
        simp only [List.mem_cons, List.not_mem_nil, or_false] at ha
        rcases ha with rfl | rfl
        · exact ⟨by decide, by decide⟩
        · exact hkey)
      (by norm_num)).trans ?_⟩
    rfl
  | set key value px hk hv hpx =>
    cases px with
    | none =>
      refine ⟨_, rfl, (from_bytes_encodeArgs (ascii "SET") [key, value]
        (by
          intro a ha
          simp only [List.mem_cons, List.not_mem_nil, or_false] at ha
          rcases ha with rfl | rfl | rfl
          · exact ⟨by decide, by decide⟩
          · exact hk
          · exact hv)
        (by norm_num)).trans ?_⟩
      rfl
    | some n =>
      have hn : n < 2 ^ 64 := hpx n rfl
      refine ⟨_, rfl, (from_bytes_encodeArgs (ascii "SET")
        [key, value, ascii "px", natToDecimal n]
        (by
          intro a ha
          simp only [List.mem_cons, List.not_mem_nil, or_false] at ha
          rcases ha with rfl | rfl | rfl | rfl | rfl
          · exact ⟨by decide, by decide⟩
          · exact hk
          · exact hv
          · exact ⟨by decide, by decide⟩
          · exact natToDecimal_wire n hn)
        (by norm_num)).trans ?_⟩
      rw [show parseCmd (lower (ascii "SET")) [key, value, ascii "px", natToDecimal n] =
        (parseUInt (2 ^ 64) (natToDecimal n)).map
          (fun px => (.Set key value (some px), [])) from rfl]
      rw [parseUInt_natToDecimal _ _ hn]
      rfl
  | info arg => cases arg with
    | none => exact ⟨_, rfl, rfl⟩
    | some a => cases a with
      | Replication => exact ⟨_, rfl, rfl⟩
  | replconfPort port hport =>
    refine ⟨_, rfl, (from_bytes_encodeArgs (ascii "REPLCONF")
      [ascii "listening-port", natToDecimal port]
      (by
        intro a ha
        simp only [List.mem_cons, List.not_mem_nil, or_false] at ha
        rcases ha with rfl | rfl | rfl
        · exact ⟨by decide, by decide⟩
        · exact ⟨by decide, by decide⟩
        · exact natToDecimal_wire port (by omega))
      (by norm_num)).trans ?_⟩
    rw [show parseCmd (lower (ascii "REPLCONF")) [ascii "listening-port", natToDecimal port] =
      (parseUInt (2 ^ 16) (natToDecimal port)).map
        (fun p => (.ReplConf (.ListeningPort p), [])) from rfl]
    rw [parseUInt_natToDecimal _ _ hport]
    rfl
  | replconfCapa capas hne hcapas hlen =>
    match capas, hne with
    | c :: cs, _ =>
      refine ⟨_, rfl, (from_bytes_encodeArgs (ascii "REPLCONF")
        (ascii "capa" :: c :: (cs.flatMap fun capa => [ascii "capa", capa]))
        (by
          intro a ha
          simp only [List.mem_cons] at ha
          rcases ha with rfl | rfl | rfl | ha
          · exact ⟨by decide, by decide⟩
          · exact ⟨by decide, by decide⟩
          · exact hcapas _ (by simp)
          · rcases List.mem_flatMap.1 ha with ⟨x, hx, hax⟩
            simp only [List.mem_cons, List.not_mem_nil, or_false] at hax
            rcases hax with rfl | rfl
            · exact ⟨by decide, by decide⟩
            · exact hcapas _ (by simp [hx]))
        (by
          simp only [List.length_cons, capa_flatMap_length]
          simp only [List.length_cons] at hlen
          norm_num
          omega)).trans ?_⟩
      rw [show parseCmd (lower (ascii "REPLCONF"))
          (ascii "capa" :: c :: (cs.flatMap fun capa => [ascii "capa", capa])) =
        (capaLoop (cs.flatMap fun capa => [ascii "capa", capa])).map
          (fun capas => (.ReplConf (.Capa (c :: capas)), [])) from rfl]
      rw [capaLoop_flatMap]
      rfl
  | replconfGetAck => exact ⟨_, rfl, rfl⟩
  | replconfAck offset hoff =>
    refine ⟨_, rfl, (from_bytes_encodeArgs (ascii "REPLCONF")
      [ascii "ACK", natToDecimal offset]
      (by
        intro a ha
        simp only [List.mem_cons, List.not_mem_nil, or_false] at ha
        rcases ha with rfl | rfl | rfl
        · exact ⟨by decide, by decide⟩
        · exact ⟨by decide, by decide⟩
        · exact natToDecimal_wire offset hoff)
      (by norm_num)).trans ?_⟩
    rw [show parseCmd (lower (ascii "REPLCONF")) [ascii "ACK", natToDecimal offset] =
      (parseUInt (2 ^ 64) (natToDecimal offset)).map
        (fun o => (.ReplConf (.Ack o), [])) from rfl]
    rw [parseUInt_natToDecimal _ _ hoff]
    rfl
  | psync repl_id repl_offset hid hoff =>
    cases repl_id with
    | none =>
      cases repl_offset with
      | none => exact ⟨_, rfl, rfl⟩
      | some n =>
        have hn : n < 2 ^ 64 := hoff n rfl
        refine ⟨_, rfl, (from_bytes_encodeArgs (ascii "PSYNC") [ascii "?", natToDecimal n]
          (by
            intro a ha
            simp only [List.mem_cons, List.not_mem_nil, or_false] at ha
            rcases ha with rfl | rfl | rfl
            · exact ⟨by decide, by decide⟩
            · exact ⟨by decide, by decide⟩
            · exact natToDecimal_wire n hn)
          (by norm_num)).trans ?_⟩
        rw [parseCmd_psync]
        rw [if_pos rfl]
        dsimp only
        rw [if_neg (natToDecimal_ne_neg1 n)]
        rw [parseUInt_natToDecimal _ _ hn]
        rfl
    | some id =>
      obtain ⟨hlen40, hbytes⟩ := hid id rfl
      have hne : id ≠ ascii "?" := by
        intro hcontra
        have hclen := congrArg List.length hcontra
        rw [hlen40] at hclen
        simp [ascii] at hclen
      have hidwire : WireArg id := ⟨fun b hb => (hbytes b hb).1, by rw [hlen40]; norm_num⟩
      cases repl_offset with
      | none =>
        refine ⟨_, rfl, (from_bytes_encodeArgs (ascii "PSYNC") [id, ascii "-1"]
          (by
            intro a ha
            simp only [List.mem_cons, List.not_mem_nil, or_false] at ha
            rcases ha with rfl | rfl | rfl
            · exact ⟨by decide, by decide⟩
            · exact hidwire
            · exact ⟨by decide, by decide⟩)
          (by norm_num)).trans ?_⟩
        rw [parseCmd_psync]
        rw [if_neg hne, if_pos hlen40]
        dsimp only
        rw [if_pos rfl]
        rfl
      | some n =>
        have hn : n < 2 ^ 64 := hoff n rfl
        refine ⟨_, rfl, (from_bytes_encodeArgs (ascii "PSYNC") [id, natToDecimal n]
          (by
            intro a ha
            simp only [List.mem_cons, List.not_mem_nil, or_false] at ha
            rcases ha with rfl | rfl | rfl
            · exact ⟨by decide, by decide⟩
            · exact hidwire
            · exact natToDecimal_wire n hn)
          (by norm_num)).trans ?_⟩
        rw [parseCmd_psync]
        rw [if_neg hne, if_pos hlen40]
        dsimp only
        rw [if_neg (natToDecimal_ne_neg1 n)]
        rw [parseUInt_natToDecimal _ _ hn]
        rfl
  | xread block streams hb hs hlen =>
    have hsid : ∀ a ∈ streams, a.start.millis < 2 ^ 64 ∧ a.start.seq_num < 2 ^ 64 :=
      fun a ha => ⟨(hs a ha).2.1, (hs a ha).2.2⟩
    have hargsWire : ∀ a ∈ (streams.map (·.key) ++ streams.map (·.start.as_bytes)),
        WireArg a := by
      intro a ha
      rcases List.mem_append.1 ha with h2 | h2
      · rcases List.mem_map.1 h2 with ⟨x, hx, rfl⟩
        exact (hs x hx).1
      · rcases List.mem_map.1 h2 with ⟨x, hx, rfl⟩
        exact as_bytes_wire x.start (hsid x hx).1 (hsid x hx).2
    cases block with
    | none =>
      refine ⟨_, rfl, (from_bytes_encodeArgs (ascii "XREAD")
        (ascii "streams" :: (streams.map (·.key) ++ streams.map (·.start.as_bytes)))
        (by
          intro a ha
          simp only [List.mem_cons] at ha
          rcases ha with rfl | rfl | ha
          · exact ⟨by decide, by decide⟩
          · exact ⟨by decide, by decide⟩
          · exact hargsWire a ha)
        (by
          simp only [List.length_cons, List.length_append, List.length_map]
          omega)).trans ?_⟩
      rw [parseCmd_xread]
      rw [show (ascii "streams" ::
          (streams.map (·.key) ++ streams.map (·.start.as_bytes))).length + 1 =
        ((streams.map (·.key) ++ streams.map (·.start.as_bytes)).length) + 2 from by
        simp]
      rw [xreadLoop_streams streams none _ hsid]
      rfl
    | some d =>
      have hd : d < 2 ^ 64 := hb d rfl
      refine ⟨_, rfl, (from_bytes_encodeArgs (ascii "XREAD")
        (ascii "block" :: natToDecimal d :: ascii "streams" ::
          (streams.map (·.key) ++ streams.map (·.start.as_bytes)))
        (by
          intro a ha
          simp only [List.mem_cons] at ha
          rcases ha with rfl | rfl | rfl | rfl | ha
          · exact ⟨by decide, by decide⟩
          · exact ⟨by decide, by decide⟩
          · exact natToDecimal_wire d hd
          · exact ⟨by decide, by decide⟩
          · exact hargsWire a ha)
        (by
          simp only [List.length_cons, List.length_append, List.length_map]
          omega)).trans ?_⟩
      rw [parseCmd_xread]
      rw [show (ascii "block" :: natToDecimal d :: ascii "streams" ::
          (streams.map (·.key) ++ streams.map (·.start.as_bytes))).length + 1 =
        ((ascii "streams" ::
          (streams.map (·.key) ++ streams.map (·.start.as_bytes))).length + 2) + 1 from by
        simp]
      rw [xreadLoop_block]
      rw [parseUInt_natToDecimal _ _ hd]
      dsimp only
      rw [show ((ascii "streams" ::
          (streams.map (·.key) ++ streams.map (·.start.as_bytes))).length + 2) =
        ((streams.map (·.key) ++ streams.map (·.start.as_bytes)).length + 1) + 2 from by
        simp]
      rw [xreadLoop_streams streams (some d) _ hsid]
      rfl

/-- C7 witness: the amended round-trip at a concrete SET with expiry. -/
theorem c7_command_roundtrip_witness :
    ∃ bytes, (Command.Set (ascii "k") (ascii "v") (some 100)).to_bytes = some bytes ∧
      Command.from_bytes bytes = some (.Set (ascii "k") (ascii "v") (some 100), []) :=
  c7_command_roundtrip _ (GoodCmd.set _ _ _
    ⟨by decide, by decide⟩ ⟨by decide, by decide⟩
    (by intro n hn; simp at hn; omega))

/-- C7 counterexample: the claim says every variant's encoding is defined, but
`Command::to_bytes` aborts (`todo!()`) on `Wait`, `Config`, `Keys`,
`LookupType` (TYPE), `XAdd` and `XRange`. -/
theorem c7_counterexample :
    Command.to_bytes .Keys = none ∧
    Command.to_bytes (.Wait 1 500) = none ∧
    Command.to_bytes (.XAdd (ascii "s") none []) = none ∧
    Command.to_bytes (.XRange (ascii "s") ⟨0, 0⟩ ⟨1, 1⟩) = none ∧
    Command.to_bytes (.LookupType (ascii "k")) = none ∧
    Command.to_bytes (.Config (.Get (ascii "dir"))) = none :=
  ⟨rfl, rfl, rfl, rfl, rfl, rfl⟩

/-! ## `src/db/stream.rs` -/

/-- `stream::make_stream_entry_id`.  `now` is the wall clock in milliseconds
(`SystemTime::now` truncated to `u64`), passed explicitly.  The `u64`
increment `last.seq + 1` is taken modulo `2 ^ 64`: at `last.seq = u64::MAX`
it wraps to `0` in a release build (a debug build panics instead). -/
def make_stream_entry_id (now : Nat) (req : Option ReqStreamEntryID)
    (last_entry : StreamEntryID) : Except String StreamEntryID :=
  match req with
  | some req =>
    if req.millis = 0 ∧ req.seq_num = some 0 then
      .error "ERR The ID specified in XADD must be greater than 0-0"
    else
      match Ord.compare req.millis last_entry.millis with
      | .lt =>
        .error "ERR The ID specified in XADD is equal or smaller than the target stream top item"
      | .eq =>
        match req.seq_num with
        | some seq =>
          if last_entry.seq_num < seq then .ok ⟨req.millis, seq⟩
          else
            .error
              "ERR The ID specified in XADD is equal or smaller than the target stream top item"
        | none => .ok ⟨req.millis, (last_entry.seq_num + 1) % 2 ^ 64⟩
      | .gt => .ok ⟨req.millis, req.seq_num.getD 0⟩
  | none =>
    if last_entry.millis = 0 ∧ last_entry.seq_num = 0 then .ok ⟨now, 0⟩
    else .ok ⟨last_entry.millis, (last_entry.seq_num + 1) % 2 ^ 64⟩

/-- C4: XADD ID resolution.  For a stream whose last ID is `L` (a `u64` pair,
so the incremented sequence number stays within `u64` — the bound appears as
a hypothesis wherever `L.seq + 1` is the result): an explicit millis equal to
`L.millis` with a missing seq resolves to `L.seq + 1`; an explicit millis
greater than `L.millis` with a missing seq resolves to seq 0; `*` resolves to
`(now, 0)` on an empty stream (last ID `0-0`) and to `(L.millis, L.seq + 1)`
otherwise; `0-0` and non-increasing resolved IDs fail with exactly the two
spec'd messages. -/
theorem c4_xadd_id_resolution (L : StreamEntryID) (now : Nat) :
    (L.seq_num + 1 < 2 ^ 64 →
      make_stream_entry_id now (some ⟨L.millis, none⟩) L = .ok ⟨L.millis, L.seq_num + 1⟩) ∧
    (∀ m, L.millis < m →
      make_stream_entry_id now (some ⟨m, none⟩) L = .ok ⟨m, 0⟩) ∧
    make_stream_entry_id now none ⟨0, 0⟩ = .ok ⟨now, 0⟩ ∧
    (¬(L.millis = 0 ∧ L.seq_num = 0) → L.seq_num + 1 < 2 ^ 64 →
      make_stream_entry_id now none L = .ok ⟨L.millis, L.seq_num + 1⟩) ∧
    make_stream_entry_id now (some ⟨0, some 0⟩) L =
      .error "ERR The ID specified in XADD must be greater than 0-0" ∧
    (∀ m q, ¬(m = 0 ∧ q = 0) → (m < L.millis ∨ (m = L.millis ∧ q ≤ L.seq_num)) →
      make_stream_entry_id now (some ⟨m, some q⟩) L =
        .error
          "ERR The ID specified in XADD is equal or smaller than the target stream top item") := by
  refine ⟨?_, ?_, ?_, ?_, ?_, ?_⟩
  · intro hseq
    unfold make_stream_entry_id
    dsimp only
    rw [if_neg (by simp)]
    rw [show compare L.millis L.millis = .eq from Nat.compare_eq_eq.2 rfl]
    dsimp only
    rw [Nat.mod_eq_of_lt hseq]
  · intro m hm
    unfold make_stream_entry_id
    dsimp only
    rw [if_neg (by simp)]
    rw [show compare m L.millis = .gt from Nat.compare_eq_gt.2 hm]
    rfl
  · unfold make_stream_entry_id
    dsimp only
    rw [if_pos ⟨rfl, rfl⟩]
  · intro hne hseq
    unfold make_stream_entry_id
    dsimp only
    rw [if_neg hne]
    rw [Nat.mod_eq_of_lt hseq]
  · unfold make_stream_entry_id
    dsimp only
    rw [if_pos ⟨rfl, rfl⟩]
  · intro m q hne hle
    unfold make_stream_entry_id
    dsimp only
    rw [if_neg (by
      rintro ⟨h1, h2⟩
      simp at h2
      exact hne ⟨h1, h2⟩)]
    rcases hle with hlt | ⟨heq, hq⟩
    · rw [show compare m L.millis = .lt from Nat.compare_eq_lt.2 hlt]
    · rw [heq]
      rw [show compare L.millis L.millis = .eq from Nat.compare_eq_eq.2 rfl]
      dsimp only
      rw [if_neg (by omega)]

/-- C4 witness: the resolution rules evaluated on a stream whose last ID is
`5-3`. -/
theorem c4_xadd_id_resolution_witness :
    make_stream_entry_id 1700 (some ⟨5, none⟩) ⟨5, 3⟩ = .ok ⟨5, 4⟩ ∧
    make_stream_entry_id 1700 (some ⟨9, none⟩) ⟨5, 3⟩ = .ok ⟨9, 0⟩ ∧
    make_stream_entry_id 1700 none ⟨0, 0⟩ = .ok ⟨1700, 0⟩ ∧
    make_stream_entry_id 1700 none ⟨5, 3⟩ = .ok ⟨5, 4⟩ ∧
    make_stream_entry_id 1700 (some ⟨0, some 0⟩) ⟨5, 3⟩ =
      .error "ERR The ID specified in XADD must be greater than 0-0" ∧
    make_stream_entry_id 1700 (some ⟨5, some 3⟩) ⟨5, 3⟩ =
      .error
        "ERR The ID specified in XADD is equal or smaller than the target stream top item" := by
  have h := c4_xadd_id_resolution ⟨5, 3⟩ 1700
  exact ⟨h.1 (by decide), h.2.1 9 (by decide), h.2.2.1,
    h.2.2.2.1 (by decide) (by decide), h.2.2.2.2.1,
    h.2.2.2.2.2 5 3 (by decide) (by right; exact ⟨rfl, by decide⟩)⟩

/-! ## `src/db/trie.rs`

`CHAR_BITSIZE = 4`, `CHARSET_SIZE = 16`: a 16-ary nibble trie over 64-bit
keys.  Keys are `Nat` below `2 ^ 64`; a key contributes exactly 16 nibbles, so
every traversal bottoms out at depth 16 and the depth-first walks carry fuel
`17`. -/

/-- `trie::TrieNode`: 16 child slots and an optional value. -/
inductive TrieNode (T : Type) : Type where
  | mk (children : List (Option (TrieNode T))) (value : Option T)

def TrieNode.children : TrieNode T → List (Option (TrieNode T))
  | .mk c _ => c

def TrieNode.value : TrieNode T → Option T
  | .mk _ v => v

/-- `TrieNode::new`. -/
def TrieNode.newNode : TrieNode T := .mk (List.replicate 16 none) none

/-- Array indexing `node.children[i]`. -/
def TrieNode.child (n : TrieNode T) (i : Nat) : Option (TrieNode T) :=
  n.children.getD i none

/-- The big-endian key made of `prefixChars` shifted past `chars`
(`(chars << (CHAR_BITSIZE * _chars.len())) + fold`). -/
def nibblesFold (chars : List Nat) : Nat :=
  chars.foldl (fun acc c => acc * 16 + c) 0

/-- `TrieNode::get_all`: the source's explicit stack realises a pre-order
depth-first walk (value first, then children in index order); fuel bounds the
depth. -/
def TrieNode.get_all : Nat → TrieNode T → List (List Nat × T)
  | 0, _ => []
  | fuel + 1, n =>
    (match n.value with | some v => [([], v)] | none => []) ++
    (List.range 16).flatMap (fun idx =>
      match n.child idx with
      | none => []
      | some c => (TrieNode.get_all fuel c).map (fun p => (idx :: p.1, p.2)))

/-- `trie::u64_to_chars`: `to_be_bytes` then high/low nibble of each byte. -/
def u64_to_chars (val : Nat) : List Nat :=
  (List.range 8).flatMap (fun i =>
    [val / 256 ^ (7 - i) % 256 / 16, val / 256 ^ (7 - i) % 256 % 16])

/-- `trie::Trie`. -/
structure Trie (T : Type) : Type where
  root : TrieNode T

def Trie.newTrie : Trie T := ⟨TrieNode.newNode⟩

/-- The nibble-walk of `Trie::insert` (creating missing children). -/
def insertAux : TrieNode T → List Nat → T → TrieNode T
  | n, [], v => .mk n.children (some v)
  | n, c :: rest, v =>
    let child := match n.child c with
      | some child => child
      | none => TrieNode.newNode
    .mk (n.children.set c (some (insertAux child rest v))) n.value

/-- `Trie::insert`. -/
def Trie.insert (t : Trie T) (key : Nat) (value : T) : Trie T :=
  ⟨insertAux t.root (u64_to_chars key) value⟩

/-- The nibble-walk shared by `Trie::get_mut` and `Trie::contains_key`. -/
def getAux : TrieNode T → List Nat → Option T
  | n, [] => n.value
  | n, c :: rest =>
    match n.child c with
    | some child => getAux child rest
    | none => none

/-- `Trie::get_mut` as a reader (the in-place mutation through the returned
reference is `Trie.modify` below). -/
def Trie.get_mut (t : Trie T) (key : Nat) : Option T := getAux t.root (u64_to_chars key)

/-- `Trie::contains_key`. -/
def Trie.contains_key (t : Trie T) (key : Nat) : Bool := (t.get_mut key).isSome

/-- Mutation through `Trie::get_mut`'s `&mut T`, as state passing: apply `f`
to the value stored at `key`, if any. -/
def modifyAux : TrieNode T → List Nat → (T → T) → TrieNode T
  | n, [], f => .mk n.children (n.value.map f)
  | n, c :: rest, f =>
    match n.child c with
    | some child => .mk (n.children.set c (some (modifyAux child rest f))) n.value
    | none => n

def Trie.modify (t : Trie T) (key : Nat) (f : T → T) : Trie T :=
  ⟨modifyAux t.root (u64_to_chars key) f⟩

/-- `children[(a)..=(b)].iter().position(is_some).map(|c| a + c)`. -/
def firstPresent (children : List (Option (TrieNode T))) (a b : Nat) : Option Nat :=
  (((children.drop a).take (b + 1 - a)).findIdx? (fun x => x.isSome)).map (fun i => a + i)

/-- `children[(a)..=(b)].iter().rev().position(is_some).map(|c| b - c)`. -/
def lastPresent (children : List (Option (TrieNode T))) (a b : Nat) : Option Nat :=
  ((((children.drop a).take (b + 1 - a)).reverse).findIdx? (fun x => x.isSome)).map
    (fun i => b - i)

/-- `children[(c)..CHARSET_SIZE].iter().position(is_some)` then `c + _c`. -/
def firstPresentFrom (children : List (Option (TrieNode T))) (c : Nat) : Option Nat :=
  ((children.drop c).findIdx? (fun x => x.isSome)).map (fun i => c + i)

/-- `children[0..=(c)].iter().rev().position(is_some)` then `c - _c`. -/
def lastPresentUpTo (children : List (Option (TrieNode T))) (c : Nat) : Option Nat :=
  (((children.take (c + 1)).reverse).findIdx? (fun x => x.isSome)).map (fun i => c - i)

/-- The `while let` loop of `Trie::traverse_to_common_node` over the zipped
start/end nibbles.  Note the clamped `start_char` is searched in the window up
to the *original* `end_char` of this level, and descent continues with the
*original* next nibbles. -/
def traverseLoop : TrieNode T → List (Nat × Nat) → Nat →
    Option (TrieNode T × Option (Nat × Nat) × Nat × List Nat × List Nat)
  | node, [], common => some (node, none, common, [], [])
  | node, (sc, ec) :: rest, common =>
    match firstPresent node.children sc ec with
    | none => none
    | some sc2 =>
      match lastPresent node.children sc2 ec with
      | none => none
      | some ec2 =>
        if sc2 ≠ ec2 then
          some (node, some (sc2, ec2), common, rest.map Prod.fst, rest.map Prod.snd)
        else
          match node.child sc2 with
          | none => none
          | some child => traverseLoop child rest (common * 16 + sc2)

/-- `Trie::traverse_to_common_node`. -/
def Trie.traverse_to_common_node (t : Trie T) (start ende : Nat) :
    Option (TrieNode T × Option (Nat × Nat) × Nat × List Nat × List Nat) :=
  traverseLoop t.root ((u64_to_chars start).zip (u64_to_chars ende)) 0

/-- The walking loop of `collect_values_along_path_to_start`: descend, then
(after the first iteration) push the current node's children above the path
nibble onto the stack (highest first), then record the node's value, then
advance to the first present child at or above the next start nibble.  An
absent path child (the source's `expect`) ends the walk. -/
def collectStartWalk : TrieNode T → Nat → List Nat → Nat → Bool →
    List (Nat × TrieNode T) → List (Nat × T) → (List (Nat × T) × List (Nat × TrieNode T))
  | node, char, startRest, common, hasPassed, stack, data =>
    match node.child char with
    | none => (data, stack)
    | some node2 =>
      let common2 := common * 16 + char
      let stack2 := if hasPassed then
          stack ++ (((List.range 16).filter (fun idx => char + 1 ≤ idx)).reverse.filterMap
            (fun idx => (node2.child idx).map (fun c => (common2, c))))
        else stack
      let data2 := data ++ (match node2.value with | some v => [(common2, v)] | none => [])
      match startRest with
      | [] => (data2, stack2)
      | c :: rest =>
        match firstPresentFrom node2.children c with
        | none => (data2, stack2)
        | some char2 => collectStartWalk node2 char2 rest common2 true stack2 data2

/-- The post-loop `while let Some(..) = stack.pop()` drain: last pushed
first, each subtree flattened by `get_all` with the pushed prefix. -/
def drainStack (stack : List (Nat × TrieNode T)) : List (Nat × T) :=
  stack.reverse.flatMap (fun p =>
    (p.2.get_all 17).map (fun q => (p.1 * 16 ^ q.1.length + nibblesFold q.1, q.2)))

/-- `Trie::collect_values_along_path_to_start`. -/
def collect_values_along_path_to_start (common_node : TrieNode T) (start_char : Nat)
    (remaining_start_chars : List Nat) (common_chars : Nat) : List (Nat × T) :=
  let r := collectStartWalk common_node start_char remaining_start_chars common_chars
    false [] []
  r.1 ++ drainStack r.2

/-- `Trie::collect_values_between_start_and_end`: whole subtrees strictly
between the two divergent nibbles, in index order. -/
def collect_values_between_start_and_end (common_node : TrieNode T)
    (start_char end_char common_chars : Nat) : List (Nat × T) :=
  ((List.range 16).filter (fun c => start_char + 1 ≤ c ∧ c < end_char)).flatMap (fun c =>
    match common_node.child c with
    | none => []
    | some n =>
      (n.get_all 17).map (fun q =>
        ((common_chars * 16 + c) * 16 ^ q.1.length + nibblesFold q.1, q.2)))

/-- The walking loop of `collect_values_along_path_to_end`: descend, then
(after the first iteration) emit the current node's children below the path
nibble (lowest first), then the node's value, then advance to the last
present child at or below the next end nibble. -/
def collectEndWalk : TrieNode T → Nat → List Nat → Nat → Bool →
    List (Nat × T) → List (Nat × T)
  | node, char, endRest, common, hasPassed, data =>
    match node.child char with
    | none => data
    | some node2 =>
      let common2 := common * 16 + char
      let data2 := if hasPassed then
          data ++ ((List.range 16).filter (fun c => c < char)).flatMap (fun c =>
            match node2.child c with
            | none => []
            | some n =>
              (n.get_all 17).map (fun q =>
                ((common2 * 16 + c) * 16 ^ q.1.length + nibblesFold q.1, q.2)))
        else data
      let data3 := data2 ++ (match node2.value with | some v => [(common2, v)] | none => [])
      match endRest with
      | [] => data3
      | c :: rest =>
        match lastPresentUpTo node2.children c with
        | none => data3
        | some char2 => collectEndWalk node2 char2 rest common2 true data3

/-- `Trie::collect_values_along_path_to_end`. -/
def collect_values_along_path_to_end (common_node : TrieNode T) (end_char : Nat)
    (remaining_end_chars : List Nat) (common_chars : Nat) : List (Nat × T) :=
  collectEndWalk common_node end_char remaining_end_chars common_chars false []

/-- `Trie::get_range_incl`. -/
def Trie.get_range_incl (t : Trie T) (start ende : Nat) : List (Nat × T) :=
  match t.traverse_to_common_node start ende with
  | none => []
  | some (common_node, cpair, common_chars, remaining_start_chars, remaining_end_chars) =>
    match cpair with
    | some (start_char, end_char) =>
      let data1 := collect_values_along_path_to_start common_node start_char
        remaining_start_chars common_chars
      let data2 := data1 ++ collect_values_between_start_and_end common_node start_char
        end_char common_chars
      if start_char < end_char then
        data2 ++ collect_values_along_path_to_end common_node end_char
          remaining_end_chars common_chars
      else data2
    | none =>
      (common_node.get_all 17).map (fun q =>
        (common_chars * 16 ^ q.1.length + nibblesFold q.1, q.2))

/-- The trie with the single key `135` (`0x87`). -/
def c3Trie : Trie String := Trie.newTrie.insert 135 "v"

/-- C3: the range scan misses an inserted key inside the bounds.  With only
`135` stored, `get_range_incl 89 143` must return `[(135, v)]` by the claim
(`89 ≤ 135 ≤ 143`), but `traverse_to_common_node` clamps the divergent start
nibble `5` up to `8` and then keeps filtering the next level by the start
key's following nibble `9`, above the stored `7`, so the scan returns
nothing. -/
theorem c3_trie_range_misses_key :
    c3Trie.contains_key 135 = true ∧
    c3Trie.get_range_incl 89 143 = [] ∧
    c3Trie.get_range_incl 135 135 = [(135, "v")] :=
  ⟨rfl, rfl, rfl⟩

/-! ## `src/db/stream.rs` (stream container) and `src/db/mod.rs` -/

/-- `HashMap::get` on the association-list model. -/
def assocGet [DecidableEq K] (k : K) (m : List (K × V)) : Option V :=
  (m.find? (fun p => p.1 = k)).map Prod.snd

/-- `HashMap::remove` on the association-list model. -/
def assocRemove [DecidableEq K] (k : K) (m : List (K × V)) : List (K × V) :=
  m.filter (fun p => ¬p.1 = k)

/-- `stream::RedisStream`: a two-level trie (millis, then seq) of field/value
bags, plus the last inserted ID. -/
structure RedisStream : Type where
  root : Trie (Trie (List (List Nat × List Nat)))
  last_entry : StreamEntryID

/-- `RedisStream::new`. -/
def RedisStream.newStream : RedisStream := ⟨Trie.newTrie, ⟨0, 0⟩⟩

/-- `RedisStream::insert`: resolve the ID, create the inner trie on a fresh
millis, store the bag under (millis, seq) (`get_mut` plus in-place insert),
and record the new last ID.  State-passing: returns the new stream alongside
the ID. -/
def RedisStream.insert (s : RedisStream) (now : Nat) (entry_id : Option ReqStreamEntryID)
    (data : List (List Nat × List Nat)) : Except String (StreamEntryID × RedisStream) :=
  match make_stream_entry_id now entry_id s.last_entry with
  | .error e => .error e
  | .ok id =>
    let root := if s.root.contains_key id.millis then s.root
      else s.root.insert id.millis Trie.newTrie
    let root := root.modify id.millis (fun node => node.insert id.seq_num data)
    .ok (id, ⟨root, id⟩)

/-- `db::RedisDb`: the string tables, the streams, and the per-key broadcast
channels.  A `tokio::sync::broadcast` sender is modelled by its live receiver
count (`send` errors exactly when it is zero); time instants are milliseconds
since the epoch. -/
structure RedisDb : Type where
  nonexpire_table : List (List Nat × List Nat)
  expire_table : List (List Nat × (List Nat × Nat))
  streams : List (List Nat × RedisStream)
  stream_senders : List (List Nat × Nat)

/-- `RedisDb::new`. -/
def RedisDb.newDb : RedisDb := ⟨[], [], [], []⟩

/-- `RedisDb::xadd`: insert into the (possibly fresh) stream, then — on
success — publish on the key's broadcast channel if one exists; the `?` on
`sender.send` turns a send failure (no live receivers) into an error return
after the append has already been recorded. -/
def RedisDb.xadd (db : RedisDb) (now : Nat) (key : List Nat)
    (entry_id : Option ReqStreamEntryID) (data : List (List Nat × List Nat)) :
    Except String StreamEntryID × RedisDb :=
  let step : Except String StreamEntryID × RedisDb :=
    match assocGet key db.streams with
    | some stream =>
      match stream.insert now entry_id data with
      | .error e => (.error e, db)
      | .ok (id, s2) => (.ok id, { db with streams := assocInsert key s2 db.streams })
    | none =>
      match RedisStream.newStream.insert now entry_id data with
      | .error e => (.error e, db)
      | .ok (id, s2) => (.ok id, { db with streams := assocInsert key s2 db.streams })
  match step with
  | (.ok id, db2) =>
    match assocGet key db2.stream_senders with
    | some receivers =>
      if receivers = 0 then (.error "channel closed", db2)
      else (.ok id, db2)
    | none => (.ok id, db2)
  | r => r

/-- A database whose only state is a broadcast channel for stream `s` whose
single subscriber has gone away (a blocking XREAD that timed out), as
`get_stream_receiver` plus a dropped receiver produce. -/
def c5Db : RedisDb := ⟨[], [], [], [(ascii "s", 0)]⟩

/-- C5: an XADD whose append succeeds is converted into an error by the
publication step.  On `c5Db`, XADD `s 1-1` records the entry (the stream
exists afterwards with last ID `1-1`) and yet returns the broadcast send
error, so an erroring XADD does not leave the database unchanged and a
completed append is reported as a failure. -/
theorem c5_xadd_send_error_after_append :
    (c5Db.xadd 0 (ascii "s") (some ⟨1, some 1⟩) [(ascii "f", ascii "x")]).1 =
      .error "channel closed" ∧
    ((assocGet (ascii "s")
        (c5Db.xadd 0 (ascii "s") (some ⟨1, some 1⟩) [(ascii "f", ascii "x")]).2.streams).map
      (fun s => s.last_entry)) = some ⟨1, 1⟩ ∧
    (assocGet (ascii "s") c5Db.streams) = none :=
  ⟨rfl, rfl, rfl⟩

/-- `RedisDb::get` at instant `now`: the non-expiring table first, then the
expiring table with lazy removal when `now` has reached the deadline
(`SystemTime::now() >= *expiry`). -/
def RedisDb.get (db : RedisDb) (now : Nat) (key : List Nat) :
    Option (List Nat) × RedisDb :=
  match assocGet key db.nonexpire_table with
  | some val => (some val, db)
  | none =>
    match assocGet key db.expire_table with
    | some ve =>
      if ve.2 ≤ now then (none, { db with expire_table := assocRemove key db.expire_table })
      else (some ve.1, db)
    | none => (none, db)

/-- `RedisDb::set` at instant `now`: move the key between the two tables
according to the presence of the PX duration, updating in place when it stays
in its table. -/
def RedisDb.set (db : RedisDb) (now : Nat) (key value : List Nat) (px : Option Nat) :
    RedisDb :=
  if (assocGet key db.nonexpire_table).isSome then
    match px with
    | some dur =>
      { db with nonexpire_table := assocRemove key db.nonexpire_table,
                expire_table := assocInsert key (value, now + dur) db.expire_table }
    | none => { db with nonexpire_table := assocInsert key value db.nonexpire_table }
  else if (assocGet key db.expire_table).isSome then
    match px with
    | some dur => { db with expire_table := assocInsert key (value, now + dur) db.expire_table }
    | none =>
      { db with expire_table := assocRemove key db.expire_table,
                nonexpire_table := assocInsert key value db.nonexpire_table }
  else
    match px with
    | some dur => { db with expire_table := assocInsert key (value, now + dur) db.expire_table }
    | none => { db with nonexpire_table := assocInsert key value db.nonexpire_table }

/-- A `get` or `set` operation with its observation instant. -/
inductive DbOp : Type where
  | get (now : Nat) (key : List Nat)
  | set (now : Nat) (key value : List Nat) (px : Option Nat)

def applyOp (db : RedisDb) : DbOp → RedisDb
  | .get now key => (db.get now key).2
  | .set now key value px => db.set now key value px

def applyOps (db : RedisDb) (ops : List DbOp) : RedisDb := ops.foldl applyOp db

/-- C10's invariant: no key is present in both string tables. -/
def stringTablesDisjoint (db : RedisDb) : Prop :=
  ∀ k ∈ db.nonexpire_table.map Prod.fst, k ∉ db.expire_table.map Prod.fst

theorem mem_keys_assocInsert [DecidableEq K] (k k2 : K) (v : V) (m : List (K × V)) :
    k2 ∈ (assocInsert k v m).map Prod.fst ↔ k2 ∈ m.map Prod.fst ∨ k2 = k := by
  unfold assocInsert
  split
  · rename_i hany
    constructor
    · intro h
      rcases List.mem_map.1 h with ⟨p, hp, rfl⟩
      rcases List.mem_map.1 hp with ⟨q, hq, rfl⟩
      split
      · right; rfl
      · left; exact List.mem_map_of_mem Prod.fst hq
    · intro h
      rcases h with h | heq
      · rcases List.mem_map.1 h with ⟨q, hq, rfl⟩
        by_cases hqk : q.1 = k
        · rw [List.mem_map]
          refine ⟨(k, v), List.mem_map.2 ⟨q, hq, by rw [if_pos hqk]⟩, hqk.symm⟩
        · rw [List.mem_map]
          refine ⟨q, List.mem_map.2 ⟨q, hq, by rw [if_neg hqk]⟩, rfl⟩
      · subst heq
        rw [List.any_eq_true] at hany
        rcases hany with ⟨q, hq, hqk⟩
        simp only [decide_eq_true_eq] at hqk
        rw [List.mem_map]
        refine ⟨(k2, v), List.mem_map.2 ⟨q, hq, by rw [if_pos hqk]⟩, rfl⟩
  · rw [List.map_append, List.mem_append]
    simp

theorem mem_keys_assocRemove [DecidableEq K] (k k2 : K) (m : List (K × V)) :
    k2 ∈ (assocRemove k m).map Prod.fst ↔ k2 ∈ m.map Prod.fst ∧ k2 ≠ k := by
  unfold assocRemove
  constructor
  · intro h
    rcases List.mem_map.1 h with ⟨p, hp, rfl⟩
    rw [List.mem_filter] at hp
    refine ⟨List.mem_map_of_mem Prod.fst hp.1, ?_⟩
    simpa using hp.2
  · rintro ⟨h, hne⟩
    rcases List.mem_map.1 h with ⟨p, hp, rfl⟩
    exact List.mem_map_of_mem Prod.fst (List.mem_filter.2 ⟨hp, by simpa using hne⟩)

theorem assocGet_isSome_iff [DecidableEq K] (k : K) (m : List (K × V)) :
    (assocGet k m).isSome = true ↔ k ∈ m.map Prod.fst := by
  unfold assocGet
  induction m with
  | nil => simp
  | cons p rest ih =>
    by_cases hp : p.1 = k
    · rw [List.find?_cons_of_pos _ (by simpa using hp)]
      simp [hp]
    · rw [List.find?_cons_of_neg _ (by simpa using hp)]
      rw [List.map_cons, List.mem_cons, ih]
      constructor
      · exact Or.inr
      · rintro (rfl | h2)
        · exact absurd rfl hp
        · exact h2

theorem disjoint_get (db : RedisDb) (now : Nat) (key : List Nat)
    (h : stringTablesDisjoint db) : stringTablesDisjoint (db.get now key).2 := by
  unfold RedisDb.get
  split
  · exact h
  · split
    · split
      · intro k hk hk2
        rw [mem_keys_assocRemove] at hk2
        exact h k hk hk2.1
      · exact h
    · exact h

theorem disjoint_set (db : RedisDb) (now : Nat) (key value : List Nat) (px : Option Nat)
    (h : stringTablesDisjoint db) : stringTablesDisjoint (db.set now key value px) := by
  unfold RedisDb.set
  split
  · rename_i hne1
    have hkeyN : key ∈ db.nonexpire_table.map Prod.fst := (assocGet_isSome_iff _ _).1 hne1
    match px with
    | some dur =>
      intro k hk hk2
      rw [mem_keys_assocRemove] at hk
      rw [mem_keys_assocInsert] at hk2
      rcases hk2 with hk2 | heq
      · exact h k hk.1 hk2
      · subst heq
        exact hk.2 rfl
    | none =>
      intro k hk hk2
      rw [mem_keys_assocInsert] at hk
      rcases hk with hk | heq
      · exact h k hk hk2
      · subst heq
        exact h k hkeyN hk2
  · rename_i hne1
    split
    · rename_i hne2
      match px with
      | some dur =>
        intro k hk hk2
        rw [mem_keys_assocInsert] at hk2
        rcases hk2 with hk2 | heq
        · exact h k hk hk2
        · subst heq
          exact hne1 ((assocGet_isSome_iff _ _).2 hk)
      | none =>
        intro k hk hk2
        rw [mem_keys_assocInsert] at hk
        rw [mem_keys_assocRemove] at hk2
        rcases hk with hk | heq
        · exact h k hk hk2.1
        · subst heq
          exact hk2.2 rfl
    · rename_i hne2
      match px with
      | some dur =>
        intro k hk hk2
        rw [mem_keys_assocInsert] at hk2
        rcases hk2 with hk2 | heq
        · exact h k hk hk2
        · subst heq
          exact hne1 ((assocGet_isSome_iff _ _).2 hk)
      | none =>
        intro k hk hk2
        rw [mem_keys_assocInsert] at hk
        rcases hk with hk | heq
        · exact h k hk hk2
        · subst heq
          exact hne2 ((assocGet_isSome_iff _ _).2 hk2)

/-- C10: the key sets of the non-expiring and expiring string tables stay
disjoint under every sequence of `get` and `set` operations: `set` places the
key in exactly one table (removing it from the other when it moves) and
`get`'s lazy expiry only removes. -/
theorem c10_string_tables_disjoint (db : RedisDb) (ops : List DbOp)
    (h : stringTablesDisjoint db) : stringTablesDisjoint (applyOps db ops) := by
  induction ops generalizing db with
  | nil => exact h
  | cons op rest ih =>
    rw [applyOps, List.foldl_cons]
    refine ih (applyOp db op) ?_
    cases op with
    | get now key => exact disjoint_get db now key h
    | set now key value px => exact disjoint_set db now key value px h

/-- C10 witness: a sequence that exercises both moves (new expiring key,
overwrite to non-expiring, expired read) starting from the empty database. -/
theorem c10_string_tables_disjoint_witness :
    stringTablesDisjoint (applyOps RedisDb.newDb
      [.set 0 (ascii "k") (ascii "v") (some 100),
       .set 1 (ascii "k") (ascii "w") none,
       .set 2 (ascii "j") (ascii "u") (some 5),
       .get 50 (ascii "j"),
       .get 50 (ascii "k")]) :=
  c10_string_tables_disjoint RedisDb.newDb _ (by intro k hk; simp [RedisDb.newDb] at hk)

/-! ## `src/server/replica.rs` (with the `src/server/mod.rs` store) -/

/-- `server::RSValue`: a value with an optional absolute expiry (ms). -/
structure RSValue : Type where
  value : List Nat
  expiry : Option Nat

/-- The `server::RedisStore` map used by the replica's connection handler. -/
def ServerStore : Type := List (List Nat × RSValue)

/-- `server::RedisStore::get` (lazy expiry at `get_current_ms() > expiry`). -/
def serverStoreGet (store : ServerStore) (now : Nat) (key : List Nat) :
    Option (List Nat) × ServerStore :=
  match assocGet key store with
  | some rsv =>
    match rsv.expiry with
    | some v => if v < now then (none, assocRemove key store) else (some rsv.value, store)
    | none => (some rsv.value, store)
  | none => (none, store)

/-- `server::RedisStore::set` (`px` is the parsed millisecond count). -/
def serverStoreSet (store : ServerStore) (now : Nat) (key value : List Nat)
    (px : Option Nat) : ServerStore :=
  assocInsert key ⟨value, px.map (fun v => now + v)⟩ store

/-- `server::MasterInfo` (40-character id as bytes, replication offset). -/
structure MasterInfo : Type where
  repl_id : List Nat
  repl_offset : Nat

/-- Modelled from the spec: `server::handle_info` is called by
`replica.rs` but absent from the sources (only its callers survive); §4.8
specifies a BulkString of `role:<role>`, `master_replid:<id>` and
`master_repl_offset:<n>` lines (line order unspecified; fixed here in the
listed order, newline-separated). -/
def handle_info (role : List Nat) (mi : MasterInfo) : RespValue :=
  .BulkString (ascii "role:" ++ role ++ [10] ++
    ascii "master_replid:" ++ mi.repl_id ++ [10] ++
    ascii "master_repl_offset:" ++ natToDecimal mi.repl_offset)

/-- The command dispatch of `ReplicaServer::handle_conn` for one decoded
client command: the reply written to the socket and the store afterwards;
`none` is the `panic!("Unsupported command")` arm, which crashes the
handler without writing a reply. -/
def replicaHandleCmd (mi : MasterInfo) (store : ServerStore) (now : Nat) :
    Command → Option (RespValue × ServerStore)
  | .Ping => some (.SimpleString (ascii "PONG"), store)
  | .Echo val => some (.BulkString val, store)
  | .Set key value px => some (.SimpleString (ascii "OK"), serverStoreSet store now key value px)
  | .Get key =>
    match serverStoreGet store now key with
    | (some x, store2) => some (.BulkString x, store2)
    | (none, store2) => some (.NullBulkString, store2)
  | .Info _ => some (handle_info (ascii "slave") mi, store)
  | .ReplConf _ => some (.SimpleString (ascii "OK"), store)
  | _ => none

/-- C9 counterexample: on a replica, a client's TYPE or XADD crashes the
handler instead of being served, REPLCONF from a client is answered with the
success reply `+OK` instead of an error, and PSYNC crashes instead of a
protocol-error reply. -/
theorem c9_counterexample :
    replicaHandleCmd ⟨ascii "id", 0⟩ [] 0 (.LookupType (ascii "k")) = none ∧
    replicaHandleCmd ⟨ascii "id", 0⟩ [] 0 (.XAdd (ascii "s") none []) = none ∧
    replicaHandleCmd ⟨ascii "id", 0⟩ [] 0 (.ReplConf .GetAck) =
      some (.SimpleString (ascii "OK"), []) ∧
    replicaHandleCmd ⟨ascii "id", 0⟩ [] 0 (.PSync none none) = none :=
  ⟨rfl, rfl, rfl, rfl⟩

/-- C9, as amended.  A replica serves exactly PING, ECHO, SET, GET and INFO
with their normal replies — a GET answers with the BulkString of the stored
value when the store's get hits, and with NullBulkString when it misses;
any REPLCONF sub-form from a client gets the success reply `+OK`; every
other command — including TYPE, XADD and PSYNC — panics the handler (no
reply at all). -/
theorem c9_replica_dispatch (mi : MasterInfo) (store : ServerStore) (now : Nat) :
    (∀ c : Command, (replicaHandleCmd mi store now c).isNone ↔
      (match c with
       | .Ping | .Echo _ | .Set _ _ _ | .Get _ | .Info _ | .ReplConf _ => False
       | _ => True)) ∧
    replicaHandleCmd mi store now .Ping = some (.SimpleString (ascii "PONG"), store) ∧
    (∀ v, replicaHandleCmd mi store now (.Echo v) = some (.BulkString v, store)) ∧
    (∀ key value px, replicaHandleCmd mi store now (.Set key value px) =
      some (.SimpleString (ascii "OK"), serverStoreSet store now key value px)) ∧
    (∀ key value st2, serverStoreGet store now key = (some value, st2) →
      replicaHandleCmd mi store now (.Get key) = some (.BulkString value, st2)) ∧
    (∀ key st2, serverStoreGet store now key = (none, st2) →
      replicaHandleCmd mi store now (.Get key) = some (.NullBulkString, st2)) ∧
    (∀ arg, replicaHandleCmd mi store now (.Info arg) =
      some (handle_info (ascii "slave") mi, store)) ∧
    (∀ arg, replicaHandleCmd mi store now (.ReplConf arg) =
      some (.SimpleString (ascii "OK"), store)) := by
  refine ⟨?_, rfl, fun v => rfl, fun key value px => rfl,
    fun key value st2 h => by simp only [replicaHandleCmd, h],
    fun key st2 h => by simp only [replicaHandleCmd, h],
    fun arg => rfl, fun arg => rfl⟩
  intro c
  cases c <;> simp [replicaHandleCmd]
  rename_i key
  rcases serverStoreGet store now key with ⟨o, store2⟩
  cases o <;> simp

/-- C9 witness: at a one-entry non-expiring store, a GET of the present key
answers with the stored value's BulkString and a GET of an absent key
answers NullBulkString, both via the dispatch theorem. -/
theorem c9_replica_dispatch_witness :
    replicaHandleCmd ⟨ascii "id", 0⟩ [(ascii "k", ⟨ascii "v", none⟩)] 0
      (.Get (ascii "k")) =
      some (.BulkString (ascii "v"), [(ascii "k", ⟨ascii "v", none⟩)]) ∧
    replicaHandleCmd ⟨ascii "id", 0⟩ [(ascii "k", ⟨ascii "v", none⟩)] 0
      (.Get (ascii "j")) =
      some (.NullBulkString, [(ascii "k", ⟨ascii "v", none⟩)]) :=
  ⟨(c9_replica_dispatch ⟨ascii "id", 0⟩ [(ascii "k", ⟨ascii "v", none⟩)] 0).2.2.2.2.1
      (ascii "k") (ascii "v") _ rfl,
   (c9_replica_dispatch ⟨ascii "id", 0⟩ [(ascii "k", ⟨ascii "v", none⟩)] 0).2.2.2.2.2.1
      (ascii "j") _ rfl⟩

/-- What `ReplicaServer::handle_cmd_from_master` does with one decoded
command: a SET is applied to the store, a `REPLCONF GETACK *` sends an ACK. -/
inductive ReplicaEvent : Type where
  | appliedSet (key value : List Nat) (px : Option Nat)
  | sentAck (offset : Nat)

/-- The `while ptr < buf_len` loop of
`ReplicaServer::handle_cmd_from_master`, fuel-indexed (each parsed command
consumes at least one byte): decode a command, compute `offset_delta` from
the consumed bytes, dispatch — a GETACK sends `REPLCONF ACK` carrying the
*current* offset — and only then add `offset_delta` to the offset. -/
def handle_cmd_from_master : Nat → Nat → List Nat → List ReplicaEvent →
    Option (Nat × List ReplicaEvent)
  | 0, _, _, _ => none
  | _ + 1, offset, [], events => some (offset, events)
  | fuel + 1, offset, buf, events =>
    match Command.from_bytes buf with
    | none => none
    | some (cmd, remaining) =>
      let offset_delta := buf.length - remaining.length
      let events2 := match cmd with
        | .Set key value px => events ++ [.appliedSet key value px]
        | .ReplConf .GetAck => events ++ [.sentAck offset]
        | _ => events
      handle_cmd_from_master fuel (offset + offset_delta) remaining events2

/-- One master-socket read processed from offset `offset`. -/
def watch_master_chunk (offset : Nat) (buf : List Nat) : Option (Nat × List ReplicaEvent) :=
  handle_cmd_from_master (buf.length + 1) offset buf []

/-- The wire bytes of `REPLCONF GETACK *` (37 bytes). -/
def getackBytes : List Nat := (Command.to_bytes (.ReplConf .GetAck)).getD []

/-- C6: the replica answers GETACK with the offset from *before* adding the
GETACK's own bytes.  Processing exactly one GETACK (37 bytes) at offset 0
sends `REPLCONF ACK 0` and only afterwards advances the offset to 37; the
claim (and the spec's chosen increment-then-send convention) requires
`ACK 37`. -/
theorem c6_ack_excludes_getack_bytes :
    getackBytes.length = 37 ∧
    watch_master_chunk 0 getackBytes = some (37, [.sentAck 0]) :=
  ⟨rfl, rfl⟩

/-! ## `src/rdb.rs` -/

/-- `rdb::RdbLength`. -/
inductive RdbLength : Type where
  | Length (l : Nat)
  | Format (v : Nat)

/-- `rdb::extract_rdb_objlength` on bytes (`b0 < 256`).  Dispatch on
`b0 >> 6`.  Note two quirks kept faithfully from the source: the `01` branch
is `(b0 % 64) << 8 + b1`, which Rust parses as `(b0 % 64) << (8 + b1)` on
`u8` — in release builds the shift amount is reduced mod 8 (a debug build
panics), modelled here as `* 2 ^ ((8 + b1) % 8) % 256` — and the `10` branch
reads a single following byte, not four. -/
def extract_rdb_objlength (bytes : List Nat) : Option (RdbLength × List Nat) :=
  match bytes with
  | [] => none
  | b0 :: remaining =>
    match b0 / 64 with
    | 0 => some (.Length b0, remaining)
    | 1 =>
      match remaining with
      | [] => none
      | b1 :: rem2 => some (.Length ((b0 % 64) * 2 ^ ((8 + b1) % 8) % 256), rem2)
    | 2 =>
      match remaining with
      | [] => none
      | b1 :: rem2 => some (.Length b1, rem2)
    | _ => some (.Format (b0 % 64), remaining)

/-- C8: the snapshot length decoding only matches the claim in the `00`
case.  For top bits `10` (first byte `0x80` here) the code returns the single
next byte (`0`) instead of the four-byte big-endian value `256`, and for top
bits `01` (`0x41 0x02`) it computes `(b0 % 64) << (8 + b1)` on `u8` — `4` in
a release build (a panic in debug) — instead of `((b0 & 0x3F) << 8) | b1 =
258`. -/
theorem c8_rdb_length_decoding :
    extract_rdb_objlength [5, 99] = some (.Length 5, [99]) ∧
    extract_rdb_objlength [128, 0, 0, 1, 0] = some (.Length 0, [0, 1, 0]) ∧
    extract_rdb_objlength [65, 2] = some (.Length 4, []) :=
  ⟨rfl, rfl, rfl⟩
